import Mathlib

/-!
# A shallow embedding of `src/assembler.ts` (ts-thumb-assembler)

This file embeds the two-pass ARM Thumb assembler of `src/assembler.ts`
into Lean 4 and proves properties of the embedding.

Modelling conventions, used throughout:

* JavaScript strings are modelled as `List Char` (`Str` below).
* JavaScript numbers that flow through bitwise operators are modelled as
  `Int`, with the ECMAScript `ToInt32` / `ToUint32` coercions made
  explicit (`toI32`, `u32`).  `parseInt` is modelled as exact integer
  parsing (exact for every value below 2^53, far above anything a valid
  assembly fragment produces).
* Thrown exceptions (`throw new Error(msg)` and the one bare
  `throw msg`) are modelled as `Except Str`; the message string is the
  carried value.
* JavaScript object dictionaries (the register tables, the label table)
  are modelled as association lists; prototype-chain artefacts of `in`
  (e.g. `"toString" in vals`) are not modelled.
* Regular expressions are deep-embedded (`Re`) together with a
  backtracking matcher whose enumeration order mirrors the ECMAScript
  semantics for the constructs the table uses: leftmost start position
  first, left alternative first, greedy quantifiers.
-/

/-- JavaScript strings, as lists of characters. -/
abbrev Str := List Char

/-- Coerce a Lean string literal into the model's string type. -/
def str (s : String) : Str := s.data

/-- ECMAScript `ToUint32`, as a natural number below `2^32`. -/
def u32 (a : Int) : Nat := (a % (2 ^ 32 : Int)).toNat

/-- Reinterpret a natural number below `2^32` as a 32-bit signed value,
the result range of every ECMAScript bitwise operator. -/
def i32OfNat (n : Nat) : Int :=
  if n < 2 ^ 31 then (n : Int) else (n : Int) - 2 ^ 32

/-- ECMAScript `ToInt32`. -/
def toI32 (a : Int) : Int := i32OfNat (u32 a)

/-- JavaScript `a | b`. -/
def jsOr (a b : Int) : Int := i32OfNat (Nat.lor (u32 a) (u32 b))

/-- JavaScript `a & b`. -/
def jsAnd (a b : Int) : Int := i32OfNat (Nat.land (u32 a) (u32 b))

/-- JavaScript `a << k` (the shift count is taken modulo 32). -/
def jsShl (a : Int) (k : Nat) : Int := i32OfNat ((u32 a) <<< (k % 32) % 2 ^ 32)

/-- JavaScript `a >> k`: sign-propagating shift, i.e. floor division of
the 32-bit signed reinterpretation. -/
def jsShr (a : Int) (k : Nat) : Int := Int.fdiv (toI32 a) (2 ^ (k % 32))

/-- JavaScript `a >>> k`: zero-fill shift on the 32-bit unsigned value. -/
def jsShrU (a : Int) (k : Nat) : Int := ((u32 a) >>> (k % 32) : Nat)

/-- The whitespace class of JavaScript `String.prototype.trim` (restricted
to the characters that can occur in assembly source). -/
def jsIsSpace (c : Char) : Bool :=
  c = ' ' ∨ c = '\t' ∨ c = '\n' ∨ c = '\x0d' ∨ c = '\x0b' ∨ c = '\x0c'

/-- JavaScript `s.trim()`. -/
def jsTrim (s : Str) : Str :=
  (s.dropWhile jsIsSpace).reverse.dropWhile jsIsSpace |>.reverse

/-- Decimal digit? -/
def isDigitCh (c : Char) : Bool := '0' ≤ c ∧ c ≤ '9'

/-- Hexadecimal digit? -/
def isHexCh (c : Char) : Bool :=
  isDigitCh c ∨ ('a' ≤ c ∧ c ≤ 'f') ∨ ('A' ≤ c ∧ c ≤ 'F')

/-- Numeric value of a (decimal or hexadecimal) digit character. -/
def digitVal (c : Char) : Nat :=
  if isDigitCh c then c.toNat - '0'.toNat
  else if 'a' ≤ c ∧ c ≤ 'f' then c.toNat - 'a'.toNat + 10
  else if 'A' ≤ c ∧ c ≤ 'F' then c.toNat - 'A'.toNat + 10
  else 0

/-- Fold a list of digit characters into a number in the given base. -/
def digitsToNat (base : Nat) (s : Str) : Nat :=
  s.foldl (fun a c => base * a + digitVal c) 0

/-- Parse the longest digit prefix; `none` when it is empty.
The unparsed remainder is discarded, as `parseInt` discards it. -/
def parseDigits (base : Nat) (isD : Char → Bool) (s : Str) : Option Nat :=
  match s.takeWhile isD with
  | [] => none
  | ds => some (digitsToNat base ds)

/-- JavaScript `parseInt(s)` with an unspecified radix: optional sign,
then either a `0x`/`0X` hexadecimal literal or a decimal digit prefix;
`none` models `NaN`. -/
def jsParseInt (s : Str) : Option Int :=
  let s := s.dropWhile jsIsSpace
  let (sgn, s) : Int × Str :=
    match s with
    | '-' :: t => (-1, t)
    | '+' :: t => (1, t)
    | t => (1, t)
  let mag : Option Nat :=
    match s with
    | '0' :: 'x' :: t => parseDigits 16 isHexCh t
    | '0' :: 'X' :: t => parseDigits 16 isHexCh t
    | t => parseDigits 10 isDigitCh t
  mag.map (fun m => sgn * (m : Int))

/-- JavaScript `parseInt(s, 16)`. -/
def jsParseInt16 (s : Str) : Option Int :=
  let s := s.dropWhile jsIsSpace
  let (sgn, s) : Int × Str :=
    match s with
    | '-' :: t => (-1, t)
    | '+' :: t => (1, t)
    | t => (1, t)
  let s := match s with
    | '0' :: 'x' :: t => t
    | '0' :: 'X' :: t => t
    | t => t
  (parseDigits 16 isHexCh s).map (fun m => sgn * (m : Int))

/-- JavaScript `s.split(sep)` for a one-character separator: `""` splits
to `[""]`, and empty pieces are kept. -/
def jsSplit (sep : Char) : Str → List Str
  | [] => [[]]
  | c :: t =>
    let rest := jsSplit sep t
    if c = sep then [] :: rest
    else match rest with
      | [] => [[c]]
      | p :: ps => (c :: p) :: ps

/-- Index of the first occurrence of a character (`s.indexOf(c)`),
`none` for `-1`. -/
def idxOfCh (c : Char) : Str → Option Nat
  | [] => none
  | a :: t => if a = c then some 0 else (idxOfCh c t).map (· + 1)

/-- `n.toString(16)` for a natural number: lowercase hexadecimal. -/
def natToHexStr (n : Nat) : Str := Nat.toDigits 16 n

/-- `n.toString()` for a natural number: decimal. -/
def natToDecStr (n : Nat) : Str := Nat.toDigits 10 n

/-- JavaScript number-to-string for the integer values the assembler
prints (decimal, with a sign for negative values). -/
def intToStr (a : Int) : Str :=
  if a < 0 then '-' :: natToDecStr (-a).toNat else natToDecStr a.toNat

/-- Stringification of a possibly-`NaN` number (string concatenation with
`NaN` prints `"NaN"`). -/
def optIntToStr : Option Int → Str
  | some a => intToStr a
  | none => str ("NaN")

/-!
## Regular expressions

A deep embedding of the fragment of ECMAScript regular expressions that
the instruction table uses: literals, character classes (with ranges and
negation), `.`, concatenation, alternation, greedy `*` (greedy `+` is
derived as concatenation with `*`), capturing groups and the `$` anchor.
A leading `^` is recorded as an `anchored` flag on the pattern.
-/

/-- Regular expression syntax. -/
inductive Re where
  | eps : Re
  | lit : Char → Re
  | cls : List (Char × Char) → Bool → Re
  | dot : Re
  | cat : Re → Re → Re
  | alt : Re → Re → Re
  | star : Re → Re
  | grp : Nat → Re → Re
  | eos : Re
deriving DecidableEq

/-- Structural size, used to compute a sufficient fuel for the matcher. -/
def reSize : Re → Nat
  | .eps => 1
  | .lit _ => 1
  | .cls _ _ => 1
  | .dot => 1
  | .cat a b => reSize a + reSize b + 1
  | .alt a b => reSize a + reSize b + 1
  | .star a => reSize a + 1
  | .grp _ a => reSize a + 1
  | .eos => 1

/-- Character-class membership. -/
def inCls (ranges : List (Char × Char)) (neg : Bool) (c : Char) : Bool :=
  let inside := ranges.any (fun p => p.1 ≤ c ∧ c ≤ p.2)
  if neg then !inside else inside

/-- Captured groups: association list from group number to captured text. -/
abbrev Caps := List (Nat × Str)

/-- All ways a regex can match a prefix of `s`, as `(remainder, captures)`
pairs, in the backtracking engine's priority order (first = the match the
engine commits to).  Structural recursion on `fuel` so that the kernel
can evaluate concrete matches; `fuelFor` below always provides enough.
A `*` iteration that consumes nothing is not repeated, as in ECMAScript.
-/
def matchRe : Nat → Re → Str → List (Str × Caps)
  | 0, _, _ => []
  | _ + 1, .eps, s => [(s, [])]
  | _ + 1, .lit c, s =>
    match s with
    | [] => []
    | a :: t => if a = c then [(t, [])] else []
  | _ + 1, .cls rs n, s =>
    match s with
    | [] => []
    | a :: t => if inCls rs n a then [(t, [])] else []
  | _ + 1, .dot, s =>
    match s with
    | [] => []
    | _ :: t => [(t, [])]
  | f + 1, .cat a b, s =>
    (matchRe f a s).flatMap
      (fun p => (matchRe f b p.1).map (fun q => (q.1, p.2 ++ q.2)))
  | f + 1, .alt a b, s => matchRe f a s ++ matchRe f b s
  | f + 1, .star a, s =>
    ((matchRe f a s).filter (fun p => p.1.length < s.length)).flatMap
      (fun p => (matchRe f (.star a) p.1).map (fun q => (q.1, p.2 ++ q.2)))
      ++ [(s, [])]
  | f + 1, .grp n a, s =>
    (matchRe f a s).map
      (fun p => (p.1, (n, s.take (s.length - p.1.length)) :: p.2))
  | _ + 1, .eos, s => if s.isEmpty then [(s, [])] else []

/-- Fuel sufficient for `matchRe` on this pattern and subject: every
recursive call strips one fuel unit, the call depth of a `*`-free pattern
is bounded by its size, and each `*` iteration consumes at least one
character. -/
def fuelFor (re : Re) (s : Str) : Nat :=
  (reSize re + 1) * (s.length + 2)

/-- Greedy `+`. -/
def rplus (a : Re) : Re := .cat a (.star a)

/-- A table pattern: the compiled body, whether the source regex started
with `^`, and its number of capturing groups. -/
structure Pattern where
  anchored : Bool
  re : Re
  groups : Nat
deriving DecidableEq

/-- First capture recorded for a group number. -/
def capLookup (caps : Caps) (n : Nat) : Option Str :=
  (caps.find? (fun p => p.1 = n)).map (·.2)

/-- The `m[1], …, m[groups]` array of a successful ECMAScript match: one
entry per group (each group of the table's patterns participates in every
successful match). -/
def capsToList (groups : Nat) (caps : Caps) : List Str :=
  (List.range groups).map (fun i => (capLookup caps (i + 1)).getD [])

/-- Try the pattern at one start position: the first entry of the
backtracking enumeration, as ECMAScript commits to it. -/
def matchHere (p : Pattern) (s : Str) : Option Caps :=
  ((matchRe (fuelFor p.re s) p.re s).head?).map (·.2)

/-- Unanchored search: leftmost start position wins. -/
def searchFrom (p : Pattern) : Str → Option Caps
  | [] => matchHere p []
  | c :: t =>
    match matchHere p (c :: t) with
    | some caps => some caps
    | none => searchFrom p t

/-- JavaScript `s.match(re)`, reduced to the capture list (`none` models a
`null` result; the full-match entry `m[0]` is never read by the
assembler). -/
def jsMatch (p : Pattern) (s : Str) : Option (List Str) :=
  (if p.anchored then matchHere p s else searchFrom p s).map
    (capsToList p.groups)

/-!
## Argument converters

Each converter mirrors one closure-producing function of the source.
Converter failure (`throw`) is `Except.error` carrying the message.
-/

/-- The label table: label name to byte address, plus the `PC` key that
pass 2 refreshes before every line.  JavaScript object semantics: a later
`setLab` shadows an earlier binding, lookup takes the newest. -/
abbrev LabelMap := List (Str × Int)

/-- `labels[k]`. -/
def lookupLab (m : LabelMap) (k : Str) : Option Int :=
  (m.find? (fun p => p.1 = k)).map (·.2)

/-- `labels[k] = v`. -/
def setLab (m : LabelMap) (k : Str) (v : Int) : LabelMap := (k, v) :: m

/-- The string JavaScript interpolates for the function object `reg` in
the error messages of `rlistLr` and `reg` (the source interpolates the
function reference itself, not the offending register text; the exact
rendering is engine-specific, so the model fixes one constant — the one
property that matters is that it does not depend on the offending text).
-/
def regFunRef : Str := str ("(regOffset) => \x7b ... \x7d")

/-- The register table of `reg` (low registers only). -/
def regVals8 (r : Str) : Option Int :=
  if r = str ("r0") then some 0 else if r = str ("r1") then some 1
  else if r = str ("r2") then some 2 else if r = str ("r3") then some 3
  else if r = str ("r4") then some 4 else if r = str ("r5") then some 5
  else if r = str ("r6") then some 6 else if r = str ("r7") then some 7
  else none

/-- The register table of `reg4` (16 registers plus the `lr`/`pc`
aliases). -/
def regVals16 (r : Str) : Option Int :=
  if r = str ("r8") then some 8 else if r = str ("r9") then some 9
  else if r = str ("r10") then some 10 else if r = str ("r11") then some 11
  else if r = str ("r12") then some 12 else if r = str ("r13") then some 13
  else if r = str ("r14") then some 14 else if r = str ("r15") then some 15
  else if r = str ("lr") then some 14 else if r = str ("pc") then some 15
  else regVals8 r

/-- `reg(regOffset)` applied to a register name. -/
def reg (regOffset : Nat) (r : Str) : Except Str Int :=
  match regVals8 r with
  | some v => .ok (jsShl v regOffset)
  | none => .error (str ("Unknown register name ") ++ regFunRef)

/-- `reg4(regOffset)` applied to a register name. -/
def reg4 (regOffset : Nat) (r : Str) : Except Str Int :=
  match regVals16 r with
  | some v => .ok (jsShl v regOffset)
  | none => .error (str ("Unknown register name ") ++ r)

/-- `regOrImmediate(regOffset, immediateBit)` applied to an argument. -/
def regOrImmediate (regOffset immediateBit : Nat) (r : Str) : Except Str Int :=
  match jsParseInt r with
  | some regVal =>
    if 0 ≤ regVal ∧ regVal < 8 then
      .ok (jsOr (jsShl (jsAnd regVal 7) regOffset) (jsShl 1 immediateBit))
    else match regVals8 r with
      | some v => .ok (jsShl v regOffset)
      | none =>
        .error (str ("Unknown register name, or immediate out of range 0..7 ")
          ++ r)
  | none =>
    match regVals8 r with
    | some v => .ok (jsShl v regOffset)
    | none =>
      .error (str ("Unknown register name, or immediate out of range 0..7 ")
        ++ r)

/-- The register-list table of `rlistLr`. -/
def rlistVals (r : Str) : Option Int :=
  if r = str ("r0") then some 1 else if r = str ("r1") then some 2
  else if r = str ("r2") then some 4 else if r = str ("r3") then some 8
  else if r = str ("r4") then some 16 else if r = str ("r5") then some 32
  else if r = str ("r6") then some 64 else if r = str ("r7") then some 128
  else if r = str ("lr") then some 256
  else none

/-- The accumulation loop of `rlistLr`. -/
def rlistFold : List Str → Int → Except Str Int
  | [], bits => .ok bits
  | r :: rest, bits =>
    match rlistVals (jsTrim r) with
    | some v => rlistFold rest (jsOr bits v)
    | none => .error (str ("Unknown register name ") ++ regFunRef)

/-- `rlistLr` applied to the text inside `{…}`. -/
def rlistLr (value : Str) : Except Str Int :=
  rlistFold (jsSplit ',' value) 0

/-- `thumb2ImmediateT3`. -/
def thumb2ImmediateT3 (value : Str) : Except Str Int :=
  if value.head? ≠ some '#' then
    .error (str ("Expecting '#' before number"))
  else
    match jsParseInt (value.drop 1) with
    | some v =>
      if 0 ≤ v ∧ v < 65536 then
        let imm4 := jsAnd (jsShr v 12) 15
        let i := jsAnd (jsShr v 11) 1
        let imm3 := jsAnd (jsShr v 8) 7
        let imm8 := jsAnd v 255
        .ok (jsOr (jsOr (jsOr (jsShl i 26) (jsShl imm4 16)) (jsShl imm3 12))
          imm8)
      else
        .error (str ("Invalid number '") ++ value
          ++ str ("' - must be between 0 and 65535"))
    | none =>
      .error (str ("Invalid number '") ++ value
        ++ str ("' - must be between 0 and 65535"))

/-- The failure message of `convertInt` (a bare `throw msg`). -/
def convertIntMsg (value : Str) (binValue : Option Int) (maxValue : Int)
    (shift : Nat) : Str :=
  str ("Invalid number '") ++ value ++ str ("' (") ++ optIntToStr binValue
    ++ str (") - must be between 0 and ") ++ intToStr maxValue
    ++ (if shift ≠ 0 then
          str (" and a multiple of ") ++ intToStr (jsShl 1 shift)
        else [])

/-- The range check and field encoding of `convertInt`, after the
argument text has been resolved to a number (`none` models `NaN`, for
which every comparison is false). -/
def convertIntCore (offset bits shift : Nat) (signed : Bool) (value : Str)
    (binValue : Option Int) : Except Str Int :=
  let maxValue0 := jsShl (jsShl 1 bits - 1) shift
  let minValue : Int := if signed then -jsShl 1 (bits - 1) else 0
  let maxValue := if signed then maxValue0 + minValue else maxValue0
  match binValue with
  | some bv =>
    if minValue ≤ bv ∧ bv ≤ maxValue ∧ jsAnd bv (jsShl 1 shift - 1) = 0 then
      .ok (jsShl (jsAnd (jsShr bv shift) (jsShl 1 bits - 1)) offset)
    else .error (convertIntMsg value binValue maxValue shift)
  | none => .error (convertIntMsg value binValue maxValue shift)

/-- `convertInt(offset, bits, shift, signed)` applied to an argument and
the label table.  A `#`-prefixed argument is an immediate; anything else
is a label reference, optionally `NAME+INT` (note that
`parseInt(value.substr(maths))` parses the `+INT` suffix including its
sign, and that `labels.PC` missing would make the displacement `NaN`). -/
def convertInt (offset bits shift : Nat) (signed : Bool) (value : Str)
    (labels : LabelMap) : Except Str Int :=
  if value.head? = some '#' then
    convertIntCore offset bits shift signed value (jsParseInt (value.drop 1))
  else
    let (name, addValue) : Str × Option Int :=
      match idxOfCh '+' value with
      | some maths => (value.take maths, jsParseInt (value.drop maths))
      | none => (value, some 0)
    match lookupLab labels name with
    | some lv =>
      let binValue : Option Int :=
        match addValue, lookupLab labels (str ("PC")) with
        | some av, some pcv => some (lv + av - pcv)
        | _, _ => none
      convertIntCore offset bits shift signed name binValue
    | none => .error (str ("Unknown label '") ++ name ++ str ("'"))

/-- `uint(offset, bits, shift)`. -/
def uint (offset bits shift : Nat) (value : Str) (labels : LabelMap) :
    Except Str Int :=
  convertInt offset bits shift false value labels

/-- `sint(offset, bits, shift)`. -/
def sint (offset bits shift : Nat) (value : Str) (labels : LabelMap) :
    Except Str Int :=
  convertInt offset bits shift true value labels

/-- `blAddr()`: the split 23-bit branch-with-link displacement. -/
def blAddr (value : Str) (labels : LabelMap) : Except Str Int :=
  match sint 0 22 1 value labels with
  | .ok v => .ok (jsOr (jsShl (jsAnd (jsShr v 11) 0x7ff) 16) (jsAnd v 0x7ff))
  | .error e => .error e

/-- The hexadecimal `.word` converter (the first inline lambda of the
`.word` table entry). -/
def wordConvHex (v : Str) : Except Str Int :=
  match jsParseInt16 v with
  | some vi => .ok (jsOr (jsShr vi 16) (jsShl vi 16))
  | none => .ok (jsOr (jsShr 0 16) (jsShl 0 16))

/-- The decimal `.word` converter (the second inline lambda of the
`.word` table entry; its regex guarantees at least one digit, so the
`NaN` case is unreachable). -/
def wordConvDec (v : Str) : Except Str Int :=
  match jsParseInt v with
  | some vi => .ok (jsOr (jsShr vi 16) (jsShl vi 16))
  | none => .ok (jsOr (jsShr 0 16) (jsShl 0 16))

/-- First-class converters of the instruction table, as a tagged sum so
that theorems can quantify over the table. -/
inductive Conv where
  | creg : Nat → Conv
  | creg4 : Nat → Conv
  | cregOrImm : Nat → Nat → Conv
  | crlist : Conv
  | cint : Nat → Nat → Nat → Bool → Conv
  | cblAddr : Conv
  | ct3 : Conv
  | cwordHex : Conv
  | cwordDec : Conv
deriving DecidableEq

/-- Converter dispatch: `argFunction(m[i+1], labels)`. -/
def runConv (c : Conv) (s : Str) (labels : LabelMap) : Except Str Int :=
  match c with
  | .creg off => reg off s
  | .creg4 off => reg4 off s
  | .cregOrImm roff ibit => regOrImmediate roff ibit s
  | .crlist => rlistLr s
  | .cint off bits shift signed => convertInt off bits shift signed s labels
  | .cblAddr => blAddr s labels
  | .ct3 => thumb2ImmediateT3 s
  | .cwordHex => wordConvHex s
  | .cwordDec => wordConvDec s

/-!
## The instruction table

Each source regex literal is compiled, by hand, into the `Re` embedding;
the translation is positional: a leading `^` becomes `anchored := true`,
a trailing `$` becomes `Re.eos`, and groups are numbered left to right.
-/

/-- Concatenate a list of regexes. -/
def cats : List Re → Re
  | [] => .eps
  | [a] => a
  | a :: t => .cat a (cats t)

/-- A sequence of literal characters. -/
def reStr (s : Str) : Re := cats (s.map Re.lit)

/-- `[0-9]` -/
def clsDigit : Re := .cls [('0', '9')] false

/-- `[0-7]` -/
def clsOct : Re := .cls [('0', '7')] false

/-- `[^,]` -/
def clsNonComma : Re := .cls [(',', ',')] true

/-- `[a-zA-Z_]` -/
def clsIdentStart : Re := .cls [('a', 'z'), ('A', 'Z'), ('_', '_')] false

/-- `[0-9a-zA-Z_]` -/
def clsIdentRest : Re :=
  .cls [('0', '9'), ('a', 'z'), ('A', 'Z'), ('_', '_')] false

/-- `[0-9A-Fa-f]` -/
def clsHex : Re := .cls [('0', '9'), ('A', 'F'), ('a', 'f')] false

/-- `(r[0-7])` as group `n`. -/
def gRlow (n : Nat) : Re := .grp n (.cat (.lit 'r') clsOct)

/-- `(#[0-9]+)` as group `n`. -/
def gImm (n : Nat) : Re := .grp n (.cat (.lit '#') (rplus clsDigit))

/-- `([^,]+)` as group `n`. -/
def gNonComma (n : Nat) : Re := .grp n (rplus clsNonComma)

/-- `([a-zA-Z_][0-9a-zA-Z_]*)` as group `n`. -/
def gIdent (n : Nat) : Re := .grp n (.cat clsIdentStart (.star clsIdentRest))

/-- `([a-zA-Z_][0-9a-zA-Z_]*\+[0-9]+)` as group `n`. -/
def gIdentPlus (n : Nat) : Re :=
  .grp n (cats [clsIdentStart, .star clsIdentRest, .lit '+', rplus clsDigit])

/-- `/(r[0-7]),(r[0-7]),(#[0-9]+)$/` -/
def pRRImm : Pattern :=
  ⟨false, cats [gRlow 1, .lit ',', gRlow 2, .lit ',', gImm 3, .eos], 3⟩

/-- `/^(r[0-7]),(r[0-7]),(#[0-9]+)$/` (the anchored form of `add.w`) -/
def pRRImmA : Pattern :=
  ⟨true, cats [gRlow 1, .lit ',', gRlow 2, .lit ',', gImm 3, .eos], 3⟩

/-- `/(r[0-7]),(r[0-7])$/` -/
def pRR : Pattern := ⟨false, cats [gRlow 1, .lit ',', gRlow 2, .eos], 2⟩

/-- `/(r[0-7]),(#[0-9]+)$/` -/
def pRImm : Pattern := ⟨false, cats [gRlow 1, .lit ',', gImm 2, .eos], 2⟩

/-- `/^(.*)$/` -/
def pAny : Pattern := ⟨true, .cat (.grp 1 (.star .dot)) .eos, 1⟩

/-- `/(lr|r[0-9]+)$/` -/
def pBx : Pattern :=
  ⟨false,
    .cat (.grp 1 (.alt (reStr (str ("lr"))) (.cat (.lit 'r') (rplus clsDigit))))
      .eos, 1⟩

/-- `/^(r[0-7]),([a-zA-Z_][0-9a-zA-Z_]*)$/` -/
def pAdr1 : Pattern := ⟨true, cats [gRlow 1, .lit ',', gIdent 2, .eos], 2⟩

/-- `/^(r[0-7]),([a-zA-Z_][0-9a-zA-Z_]*\+[0-9]+)$/` -/
def pAdr2 : Pattern := ⟨true, cats [gRlow 1, .lit ',', gIdentPlus 2, .eos], 2⟩

/-- `/^{(.*)}$/` -/
def pCurly : Pattern :=
  ⟨true, cats [.lit '\x7b', .grp 1 (.star .dot), .lit '\x7d', .eos], 1⟩

/-- `/^(r[0-7]),pc,(#[0-9]+)$/` -/
def pAddPc : Pattern :=
  ⟨true, cats [gRlow 1, reStr (str (",pc,")), gImm 2, .eos], 2⟩

/-- `/^(r[0-7]),sp,(#[0-9]+)$/` -/
def pAddSp : Pattern :=
  ⟨true, cats [gRlow 1, reStr (str (",sp,")), gImm 2, .eos], 2⟩

/-- `/^sp,(#[0-9]+)$/` -/
def pSpImm : Pattern := ⟨true, cats [reStr (str ("sp,")), gImm 1, .eos], 1⟩

/-- `/^(r[0-7]),(r[0-7]),([^,]+)$/` -/
def pRRAny : Pattern :=
  ⟨true, cats [gRlow 1, .lit ',', gRlow 2, .lit ',', gNonComma 3, .eos], 3⟩

/-- `/^([^,]+),([^,]+),([^,]+)$/` -/
def pAnyAnyAny : Pattern :=
  ⟨true,
    cats [gNonComma 1, .lit ',', gNonComma 2, .lit ',', gNonComma 3, .eos], 3⟩

/-- `/^(r[0-7]),(r[0-7]),(r[0-7])$/` -/
def pRRR32 : Pattern :=
  ⟨true, cats [gRlow 1, .lit ',', gRlow 2, .lit ',', gRlow 3, .eos], 3⟩

/-- `/(r[0-7]),\[(r[0-7]),(r[0-7])\]$/` -/
def pMemRR : Pattern :=
  ⟨false,
    cats [gRlow 1, reStr (str (",[")), gRlow 2, .lit ',', gRlow 3, .lit ']',
      .eos], 3⟩

/-- `/(r[0-7]),\[sp,(#[0-9]+)\]$/` -/
def pMemSp : Pattern :=
  ⟨false, cats [gRlow 1, reStr (str (",[sp,")), gImm 2, .lit ']', .eos], 2⟩

/-- `/(r[0-7]),\[(r[0-7])\]$/` -/
def pMemR : Pattern :=
  ⟨false, cats [gRlow 1, reStr (str (",[")), gRlow 2, .lit ']', .eos], 2⟩

/-- `/(r[0-7]),\[(r[0-7]),(#[0-9]+)\]$/` -/
def pMemRImm : Pattern :=
  ⟨false,
    cats [gRlow 1, reStr (str (",[")), gRlow 2, .lit ',', gImm 3, .lit ']',
      .eos], 3⟩

/-- `/(r[0-7]),\[pc,(#[0-9]+)\]$/` -/
def pLdrPc : Pattern :=
  ⟨false, cats [gRlow 1, reStr (str (",[pc,")), gImm 2, .lit ']', .eos], 2⟩

/-- `/(r[0-7]),([a-zA-Z_][0-9a-zA-Z_]*)$/` -/
def pLdrLabel : Pattern := ⟨false, cats [gRlow 1, .lit ',', gIdent 2, .eos], 2⟩

/-- `/(r[0-7]),([a-zA-Z_][0-9a-zA-Z_]*\+[0-9]+)$/` -/
def pLdrLabelPlus : Pattern :=
  ⟨false, cats [gRlow 1, .lit ',', gIdentPlus 2, .eos], 2⟩

/-- `/sp,(r[0-7])$/` -/
def pMovSp : Pattern := ⟨false, cats [reStr (str ("sp,")), gRlow 1, .eos], 1⟩

/-- `/0x([0-9A-Fa-f]+)$/` -/
def pWordHex : Pattern :=
  ⟨false, cats [reStr (str ("0x")), .grp 1 (rplus clsHex), .eos], 1⟩

/-- `/([0-9]+)$/` -/
def pWordDec : Pattern := ⟨false, .cat (.grp 1 (rplus clsDigit)) .eos, 1⟩

/-- `new RegExp("")`: the empty pattern, matching everywhere. -/
def pEmpty : Pattern := ⟨false, .eps, 0⟩

/-- `/i/` -/
def pLitI : Pattern := ⟨false, .lit 'i', 0⟩

/-- `/(#[0-9]+)$/` -/
def pImmOnly : Pattern := ⟨false, .cat (gImm 1) .eos, 1⟩

/-- One encoding variant: bit template, argument pattern, converters. -/
structure Variant where
  base : Str
  pat : Pattern
  args : List Conv
deriving DecidableEq

/-- The instruction table `ops`, in source order. -/
def ops : List (Str × List Variant) :=
  [ (str ("lsl"),
     [⟨str ("00000-----___---"), pRRImm,
        [.creg 0, .creg 3, .cint 6 5 0 false]⟩,
      ⟨str ("0100000010___---"), pRR, [.creg 0, .creg 3]⟩]),
    (str ("lsr"),
     [⟨str ("00001-----___---"), pRRImm,
        [.creg 0, .creg 3, .cint 6 5 0 false]⟩,
      ⟨str ("0100000011___---"), pRR, [.creg 0, .creg 3]⟩]),
    (str ("asr"),
     [⟨str ("00010-----___---"), pRRImm,
        [.creg 0, .creg 3, .cint 6 5 0 false]⟩,
      ⟨str ("0100000100___---"), pRR, [.creg 0, .creg 3]⟩]),
    (str ("cmp"),
     [⟨str ("00101---________"), pRImm, [.creg 8, .cint 0 8 0 false]⟩,
      ⟨str ("0100001010___---"), pRR, [.creg 0, .creg 3]⟩]),
    (str ("and"), [⟨str ("0100000000___---"), pRR, [.creg 0, .creg 3]⟩]),
    (str ("eor"), [⟨str ("0100000001___---"), pRR, [.creg 0, .creg 3]⟩]),
    (str ("adc"), [⟨str ("0100000101___---"), pRR, [.creg 0, .creg 3]⟩]),
    (str ("sbc"), [⟨str ("0100000110___---"), pRR, [.creg 0, .creg 3]⟩]),
    (str ("ror"), [⟨str ("0100000111___---"), pRR, [.creg 0, .creg 3]⟩]),
    (str ("tst"), [⟨str ("0100001000___---"), pRR, [.creg 0, .creg 3]⟩]),
    (str ("neg"), [⟨str ("0100001001___---"), pRR, [.creg 0, .creg 3]⟩]),
    (str ("cmn"), [⟨str ("0100001011___---"), pRR, [.creg 0, .creg 3]⟩]),
    (str ("orr"), [⟨str ("0100001100___---"), pRR, [.creg 0, .creg 3]⟩]),
    (str ("mul"), [⟨str ("0100001101___---"), pRR, [.creg 0, .creg 3]⟩]),
    (str ("bic"), [⟨str ("0100001110___---"), pRR, [.creg 0, .creg 3]⟩]),
    (str ("mvn"), [⟨str ("0100001111___---"), pRR, [.creg 0, .creg 3]⟩]),
    (str ("beq"), [⟨str ("11010000________"), pAny, [.cint 0 8 1 true]⟩]),
    (str ("bne"), [⟨str ("11010001________"), pAny, [.cint 0 8 1 true]⟩]),
    (str ("bcs"), [⟨str ("11010010________"), pAny, [.cint 0 8 1 true]⟩]),
    (str ("bcc"), [⟨str ("11010011________"), pAny, [.cint 0 8 1 true]⟩]),
    (str ("bmi"), [⟨str ("11010100________"), pAny, [.cint 0 8 1 true]⟩]),
    (str ("bpl"), [⟨str ("11010101________"), pAny, [.cint 0 8 1 true]⟩]),
    (str ("bvs"), [⟨str ("11010110________"), pAny, [.cint 0 8 1 true]⟩]),
    (str ("bvc"), [⟨str ("11010111________"), pAny, [.cint 0 8 1 true]⟩]),
    (str ("bhi"), [⟨str ("11011000________"), pAny, [.cint 0 8 1 true]⟩]),
    (str ("bls"), [⟨str ("11011001________"), pAny, [.cint 0 8 1 true]⟩]),
    (str ("bge"), [⟨str ("11011010________"), pAny, [.cint 0 8 1 true]⟩]),
    (str ("blt"), [⟨str ("11011011________"), pAny, [.cint 0 8 1 true]⟩]),
    (str ("bgt"), [⟨str ("11011100________"), pAny, [.cint 0 8 1 true]⟩]),
    (str ("ble"), [⟨str ("11011101________"), pAny, [.cint 0 8 1 true]⟩]),
    (str ("b"), [⟨str ("11100___________"), pAny, [.cint 0 11 1 true]⟩]),
    (str ("bl"),
     [⟨str ("11110___________11111___________"), pAny, [.cblAddr]⟩]),
    (str ("bx"), [⟨str ("010001110----000"), pBx, [.creg4 3]⟩]),
    (str ("adr"),
     [⟨str ("10100---________"), pAdr1, [.creg 8, .cint 0 8 2 false]⟩,
      ⟨str ("10100---________"), pAdr2, [.creg 8, .cint 0 8 2 false]⟩]),
    (str ("push"), [⟨str ("1011010-________"), pCurly, [.crlist]⟩]),
    (str ("pop"), [⟨str ("1011110-________"), pCurly, [.crlist]⟩]),
    (str ("add"),
     [⟨str ("00110---________"), pRImm, [.creg 8, .cint 0 8 0 false]⟩,
      ⟨str ("10100---________"), pAddPc, [.creg 8, .cint 0 8 2 false]⟩,
      ⟨str ("10101---________"), pAddSp, [.creg 8, .cint 0 8 2 false]⟩,
      ⟨str ("101100000_______"), pSpImm, [.cint 0 7 2 false]⟩,
      ⟨str ("00011-0___---___"), pRRAny,
        [.creg 0, .creg 3, .cregOrImm 6 10]⟩]),
    (str ("adds"),
     [⟨str ("00011-0___---___"), pRRAny,
        [.creg 0, .creg 3, .cregOrImm 6 10]⟩]),
    (str ("adc.w"),
     [⟨str ("111010110100----________--------"), pRRR32,
        [.creg 16, .creg 8, .creg 0]⟩]),
    (str ("add.w"),
     [⟨str ("11110001--------________--------"), pRRImmA,
        [.creg 16, .creg 8, .cint 0 8 0 false]⟩]),
    (str ("sub"),
     [⟨str ("00111---________"), pRImm, [.creg 8, .cint 0 8 0 false]⟩,
      ⟨str ("101100001_______"), pSpImm, [.cint 0 7 2 false]⟩,
      ⟨str ("00011-1___---___"), pAnyAnyAny,
        [.creg 0, .creg 3, .cregOrImm 6 10]⟩]),
    (str ("str"),
     [⟨str ("0101000---___---"), pMemRR, [.creg 0, .creg 3, .creg 6]⟩,
      ⟨str ("10010---________"), pMemSp, [.creg 8, .cint 0 8 2 false]⟩,
      ⟨str ("0110000000___---"), pMemR, [.creg 0, .creg 3]⟩,
      ⟨str ("0110000---___---"), pMemRImm,
        [.creg 0, .creg 3, .cint 6 5 2 false]⟩]),
    (str ("strb"),
     [⟨str ("0101010---___---"), pMemRR, [.creg 0, .creg 3, .creg 6]⟩,
      ⟨str ("0111000---___---"), pMemRImm,
        [.creg 0, .creg 3, .cint 6 5 2 false]⟩]),
    (str ("ldr"),
     [⟨str ("01001---________"), pLdrPc, [.creg 8, .cint 0 8 2 false]⟩,
      ⟨str ("10011---________"), pMemSp, [.creg 8, .cint 0 8 2 false]⟩,
      ⟨str ("01001---________"), pLdrLabel, [.creg 8, .cint 0 8 2 false]⟩,
      ⟨str ("01001---________"), pLdrLabelPlus,
        [.creg 8, .cint 0 8 2 false]⟩,
      ⟨str ("0101100---___---"), pMemRR, [.creg 0, .creg 3, .creg 6]⟩,
      ⟨str ("0110100000___---"), pMemR, [.creg 0, .creg 3]⟩,
      ⟨str ("0110100---___---"), pMemRImm,
        [.creg 0, .creg 3, .cint 6 5 2 false]⟩]),
    (str ("ldrb"),
     [⟨str ("0101110---___---"), pMemRR, [.creg 0, .creg 3, .creg 6]⟩,
      ⟨str ("0110100---___---"), pMemRImm,
        [.creg 0, .creg 3, .cint 6 5 2 false]⟩]),
    (str ("mov"),
     [⟨str ("00100---________"), pRImm, [.creg 8, .cint 0 8 0 false]⟩,
      ⟨str ("0001110000---___"), pRR, [.creg 0, .creg 3]⟩,
      ⟨str ("0100011010---101"), pMovSp, [.creg 3]⟩]),
    (str ("movs"),
     [⟨str ("00100---________"), pRImm, [.creg 8, .cint 0 8 0 false]⟩]),
    (str ("movw"),
     [⟨str ("11110-100100----0___----________"), pRImm, [.creg4 8, .ct3]⟩]),
    (str (".word"),
     [⟨str ("--------------------------------"), pWordHex, [.cwordHex]⟩,
      ⟨str ("--------------------------------"), pWordDec, [.cwordDec]⟩]),
    (str ("nop"), [⟨str ("0100011011000000"), pEmpty, []⟩]),
    (str ("cpsie"), [⟨str ("1011011001100010"), pLitI, []⟩]),
    (str ("cpsid"), [⟨str ("1011011001110010"), pLitI, []⟩]),
    (str ("wfe"), [⟨str ("1011111100100000"), pLitI, []⟩]),
    (str ("wfi"), [⟨str ("1011111100110000"), pLitI, []⟩]),
    (str ("bkpt"),
     [⟨str ("10111110--------"), pImmOnly, [.cint 0 8 0 false]⟩]) ]

/-- `opName in ops` / `ops[opName]`. -/
def opsLookup (name : Str) : Option (List Variant) :=
  (ops.find? (fun p => p.1 = name)).map (·.2)

/-!
## The two-pass engine
-/

/-- `getOpCode`: replace the placeholder characters `-` and `_` by `0`
and parse the result as a binary numeral (`parseInt(base, 2)`; the
`opCode < 0` fix-up of the source is unreachable, a binary numeral being
non-negative, and is therefore not modelled). -/
def parseBin (s : Str) : Nat :=
  s.foldl (fun a c => 2 * a + (if c = '1' then 1 else 0)) 0

/-- `getOpCode(binary)`. -/
def getOpCode (binary : Str) : Nat :=
  parseBin (binary.map (fun b => if b = '-' ∨ b = '_' then '0' else b))

/-- The line tokenizer inside `assembleInternal`: the mnemonic ends at
the first tab if the line has one, otherwise at the first space,
otherwise at the end of the line; the argument blob is the remainder with
every space and tab removed (`replace(/[ \t]/g, "")`) and then trimmed.
-/
def splitLine (line : Str) : Str × Str :=
  let firstArgEnd :=
    match idxOfCh '\t' line with
    | some i => i
    | none =>
      match idxOfCh ' ' line with
      | some i => i
      | none => line.length
  (line.take firstArgEnd,
   jsTrim ((line.drop firstArgEnd).filter (fun c => ¬(c = ' ' ∨ c = '\t'))))

/-- Try the variants of a mnemonic in listed order; the first whose
pattern matches the argument blob wins (`break` in the source). -/
def findVariant : List Variant → Str → Option (Variant × List Str)
  | [], _ => none
  | v :: rest, blob =>
    match jsMatch v.pat blob with
    | some caps => some (v, caps)
    | none => findVariant rest blob

/-- The pass-2 argument loop: `opCode |= argFunction(m[i+1], labels)` for
each converter (the table invariant — every pattern has at least as many
groups as its variant has converters — makes the `[]` default for a
missing capture unreachable). -/
def applyArgs : List Conv → List Str → LabelMap → Int → Except Str Int
  | [], _, _, opCode => .ok opCode
  | c :: cs, caps, labels, opCode =>
    match runConv c (caps.headD []) labels with
    | .ok bits => applyArgs cs (caps.tail) labels (jsOr opCode bits)
    | .error e => .error e

/-- The per-call state of `assembleInternal`: the running byte address,
the pass-2 label table (`none` during pass 1, when the `labels` parameter
is `undefined`), the label table under construction, and the half-words
handed to `wordCallback` so far. -/
structure AsmState where
  addr : Nat
  labels : Option LabelMap
  newLabels : LabelMap
  words : List Int
deriving DecidableEq

/-- One iteration of the `asmLines.forEach` body of `assembleInternal`. -/
def asmLine (st : AsmState) (line0 : Str) : Except Str AsmState :=
  let labels1 : Option LabelMap :=
    st.labels.map (fun l => setLab l (str ("PC")) ((st.addr : Int) + 4))
  let line := jsTrim line0
  if line = [] then .ok { st with labels := labels1 }
  else if line.getLast? = some ':' then
    let labelName := line.dropLast
    if lookupLab st.newLabels labelName ≠ none then
      .error (str ("Label '") ++ labelName ++ str ("' was already defined"))
    else
      .ok { st with labels := labels1,
                    newLabels := setLab st.newLabels labelName (st.addr : Int) }
  else
    let pr := splitLine line
    match opsLookup pr.1 with
    | none =>
      .error (str ("Unknown Op '") ++ pr.1 ++ str ("' in '") ++ line
        ++ str ("'"))
    | some variants =>
      match findVariant variants pr.2 with
      | none =>
        .error (str ("Unknown arg style '") ++ pr.2 ++ str ("' in '") ++ line
          ++ str ("'"))
      | some (v, caps) =>
        let conv : Except Str Int :=
          match labels1 with
          | none => .ok ((getOpCode v.base : Nat) : Int)
          | some l => applyArgs v.args caps l ((getOpCode v.base : Nat) : Int)
        match conv with
        | .error e => .error e
        | .ok opCode =>
          if v.base.length > 16 then
            .ok { addr := st.addr + 4, labels := labels1,
                  newLabels := st.newLabels,
                  words := st.words ++ [jsShrU opCode 16, jsAnd opCode 0xffff] }
          else
            .ok { addr := st.addr + 2, labels := labels1,
                  newLabels := st.newLabels,
                  words := st.words ++ [opCode] }

/-- `assembleInternal(asmLines, wordCallback, labels)`, with the words
handed to the callback collected in the state. -/
def assembleInternal (asmLines : List Str) (labels : Option LabelMap) :
    Except Str AsmState :=
  asmLines.foldlM asmLine
    { addr := 0, labels := labels, newLabels := [], words := [] }

/-- `assemble(asmLines, wordCallback)`: pass 1 with no label table and a
discarding callback, then pass 2 with the labels pass 1 found. -/
def assemble (asmLines : List Str) : Except Str (List Int) :=
  match assembleInternal asmLines none with
  | .error e => .error e
  | .ok pass1 =>
    match assembleInternal asmLines (some pass1.newLabels) with
    | .error e => .error e
    | .ok pass2 => .ok pass2.words

/-- `"0x" + word.toString(16)`. -/
def fmtWord (w : Int) : Str :=
  str ("0x") ++ (if w < 0 then '-' :: natToHexStr (-w).toNat
                 else natToHexStr w.toNat)

/-- `assembleBlock(asmLines)`: catch any failure and return `undefined`
(`none`); on success, the collected half-words formatted as hexadecimal
strings. -/
def assembleBlock (asmLines : List Str) : Option (List Str) :=
  match assemble asmLines with
  | .ok ws => some (ws.map fmtWord)
  | .error _ => none

/-!
## Auxiliary definitions for the verification

Decidable equality on results, the tokenizer as the specification words
it (for comparison with the code's tokenizer), the static bound check
used for the output-range invariant, and concrete states used to witness
the universal theorems.
-/

instance {ε α : Type} [DecidableEq ε] [DecidableEq α] :
    DecidableEq (Except ε α) := fun a b =>
  match a, b with
  | .ok x, .ok y =>
    if h : x = y then isTrue (by rw [h]) else isFalse (by simp [h])
  | .error x, .error y =>
    if h : x = y then isTrue (by rw [h]) else isFalse (by simp [h])
  | .ok _, .error _ => isFalse (by simp)
  | .error _, .ok _ => isFalse (by simp)

/-- The mnemonic as the specification words it: the substring before the
earliest occurrence of a tab or a space, whichever kind comes first. -/
def mnemonicClaimedSpec (line : Str) : Str :=
  line.takeWhile (fun c => !(c == '\t' || c == ' '))

/-- The tokenizer as amended: the mnemonic ends at the first tab when the
line contains a tab, and only otherwise at the first space; the argument
blob is the remainder with every space and tab removed. -/
def splitLineAmendedSpec (line : Str) : Str × Str :=
  let mn :=
    if '\t' ∈ line then line.takeWhile (fun c => !(c == '\t'))
    else line.takeWhile (fun c => !(c == ' '))
  (mn,
   jsTrim ((line.drop mn.length).filter (fun c => ¬(c = ' ' ∨ c = '\t'))))

/-- Static bound data for a converter: checks that every successful
result fits in 16 bits (used only for converters that appear in 16-bit
variants). -/
def convOk16 : Conv → Bool
  | .creg off => off + 3 ≤ 16
  | .creg4 off => off + 4 ≤ 16
  | .cregOrImm roff ibit => roff + 3 ≤ 16 ∧ ibit + 1 ≤ 16
  | .crlist => true
  | .cint off bits shift _ => 1 ≤ bits ∧ off + bits ≤ 16 ∧ bits + shift ≤ 30
  | .cblAddr => false
  | .ct3 => false
  | .cwordHex => false
  | .cwordDec => false

/-- Every 16-bit variant of the table uses only converters whose results
fit in 16 bits. -/
def table16Ok : Bool :=
  ops.all (fun p =>
    p.2.all (fun v => decide (v.base.length > 16) || v.args.all convOk16))

/-- The label/branch program of the specification's boundary scenario 3.
-/
def loopLines : List Str :=
  [str ("loop:"), str ("sub r0,#1"), str ("bne loop")]

/-- The final pass-2 state of `assembleInternal` on `loopLines` (the
`labels` field carries the repeatedly refreshed `PC` bindings). -/
def loopPass2St : AsmState :=
  { addr := 4,
    labels := some [(str ("PC"), 6), (str ("PC"), 4), (str ("PC"), 4),
      (str ("loop"), 0)],
    newLabels := [(str ("loop"), 0)],
    words := [0x3801, 0xD1FD] }

/-!
## Claim theorems
-/

/-- C1, counterexample: `assembleBlock(["nop"])` returns the single
half-word `0x46C0` (as the string `"0x46c0"`): the output has odd length
— no `0x0000` padding half-word is appended — and is not the claimed
two-element `[0x46C0, 0x0000]`. -/
theorem C1_counterexample :
    assembleBlock [str ("nop")] = some [str ("0x46c0")] ∧
    ¬ 2 ∣ List.length [str ("0x46c0")] ∧
    assembleBlock [str ("nop")] ≠ some [str ("0x46c0"), str ("0x0")] := by
  decide

/-- C1, amended: `assembleBlock` performs no word-alignment padding: on
success it returns exactly the half-words pass 2 emitted, so the output
length can be odd; in particular `assembleBlock(["nop"])` returns the
single half-word `0x46C0`. -/
theorem C1_amended_no_padding :
    (∀ lines ws, assemble lines = Except.ok ws →
      assembleBlock lines = some (ws.map fmtWord)) ∧
    assemble [str ("nop")] = Except.ok [0x46C0] ∧
    assembleBlock [str ("nop")] = some [str ("0x46c0")] := by
  refine ⟨?_, by decide, by decide⟩
  intro lines ws h
  simp [assembleBlock, h]

/-- Witness for C1: the universally quantified part of
`C1_amended_no_padding`, applied at the `["nop"]` input. -/
theorem C1_amended_no_padding_witness :
    assembleBlock [str ("nop")] = some (List.map fmtWord [(0x46C0 : Int)]) :=
  C1_amended_no_padding.1 [str ("nop")] [0x46C0] (by decide)

/-- C2, counterexample: the signed converter `sint(0, 8, 1)` accepts the
immediate `#300` and encodes it as field value `150`, although `300`
exceeds the claimed maximum `(2^8 − 2^7 − 1)·2^1 = 254` (the code's
signed minimum is `-(2^(bits-1))`, not scaled by the shift, and its
maximum is biased by that minimum). -/
theorem C2_counterexample :
    sint 0 8 1 (str ("#300")) [] = Except.ok 150 ∧
    ¬ ((300 : Int) ≤ ((2 ^ 8 : Int) - 2 ^ 7 - 1) * 2 ^ 1) := by
  decide

/-- C4: assembling `["loop:", "sub r0,#1", "bne loop"]` succeeds with
exactly the half-words `[0x3801, 0xD1FD]`; at the `bne`, with `loop = 0`
and `PC = 6`, `sint(0,8,1)` encodes the displacement `−6` as the field
`0xFD`. -/
theorem C4_label_branch :
    assemble loopLines = Except.ok [0x3801, 0xD1FD] ∧
    assembleBlock loopLines = some [str ("0x3801"), str ("0xd1fd")] ∧
    sint 0 8 1 (str ("loop")) [(str ("loop"), 0), (str ("PC"), 6)]
      = Except.ok 0xFD := by
  decide

/-- C5: the code rejects the bare lines `"wfe"` and `"wfi"` — their table
entries carry the pattern `/i/`, which the empty argument blob does not
match — while an (unintended) `"wfe i"` form emits the claimed templates
`0xBF20`/`0xBF30`.  This contradicts the specification, for which the two
mnemonics take no operand. -/
theorem C5_wfe_wfi_eval :
    assemble [str ("wfe")]
      = Except.error (str ("Unknown arg style '' in 'wfe'")) ∧
    assemble [str ("wfi")]
      = Except.error (str ("Unknown arg style '' in 'wfi'")) ∧
    assembleBlock [str ("wfe")] = none ∧
    assembleBlock [str ("wfi")] = none ∧
    assemble [str ("wfe i")] = Except.ok [0xBF20] ∧
    assemble [str ("wfi i")] = Except.ok [0xBF30] := by
  decide

/-- C6, counterexample: on the line `"a b\tc"` — a space before a tab —
the code takes the mnemonic up to the first *tab* (`"a b"`), not up to
the earliest whitespace of either kind (`"a"`) as claimed. -/
theorem C6_counterexample :
    (splitLine (str ("a b\tc"))).1 = str ("a b") ∧
    mnemonicClaimedSpec (str ("a b\tc")) = str ("a") ∧
    str ("a b") ≠ str ("a") := by
  decide

/-- C8: variant patterns without `^` match any suffix of the argument
blob: for `"add r0,r1,#2"` the 8-bit-immediate variant (template
`00110---________`) wins by matching the suffix `"r1,#2"`, the leading
`"r0,"` is ignored, and the emitted half-word is `0x3102`. -/
theorem C8_unanchored_suffix_match :
    assemble [str ("add r0,r1,#2")] = Except.ok [0x3102] ∧
    assembleBlock [str ("add r0,r1,#2")] = some [str ("0x3102")] ∧
    (findVariant ((opsLookup (str ("add"))).getD []) (str ("r0,r1,#2"))).map
        (fun vc => (vc.1.base, vc.2))
      = some (str ("00110---________"), [str ("r1"), str ("#2")]) := by
  decide

/-- C9: `regOrImmediate` accepts a bare decimal `0..7` (setting the
immediate bit) and rejects a `#`-prefixed immediate as an unknown
register: `"adds r0,r1,2"` assembles to `0x1C88` (bit 10, the immediate
bit, set), while `"adds r0,r1,#2"` fails. -/
theorem C9_regOrImmediate_behavior :
    regOrImmediate 6 10 (str ("2")) = Except.ok 1152 ∧
    regOrImmediate 6 10 (str ("#2"))
      = Except.error
          (str ("Unknown register name, or immediate out of range 0..7 #2")) ∧
    assemble [str ("adds r0,r1,2")] = Except.ok [0x1C88] ∧
    Nat.testBit 0x1C88 10 = true ∧
    assemble [str ("adds r0,r1,#2")]
      = Except.error
          (str ("Unknown register name, or immediate out of range 0..7 #2")) ∧
    assembleBlock [str ("adds r0,r1,#2")] = none := by
  decide

/-- C3, counterexample: two different offending lines (unknown registers
`xq` and `zz` reaching the low-register converter through `sub`'s
three-operand variant) fail with the *identical* message — the source
interpolates the function reference `reg` instead of the offending text —
so the failure message does not name the offending line or value. -/
theorem C3_counterexample :
    assemble [str ("sub xq,r1,r2")]
      = Except.error (str ("Unknown register name ") ++ regFunRef) ∧
    assemble [str ("sub zz,r1,r2")]
      = Except.error (str ("Unknown register name ") ++ regFunRef) ∧
    str ("sub xq,r1,r2") ≠ str ("sub zz,r1,r2") ∧
    assembleBlock [str ("sub xq,r1,r2")] = none := by
  decide

theorem idxOfCh_none_iff {c : Char} :
    ∀ {l : Str}, idxOfCh c l = none ↔ c ∉ l := by
  intro l
  induction l with
  | nil => simp [idxOfCh]
  | cons a t ih =>
    by_cases hac : a = c
    · simp [idxOfCh, hac]
    · simp [idxOfCh, hac, ih]
      exact fun _ hca => hac hca.symm

theorem idxOfCh_none_takeWhile {c : Char} :
    ∀ {l : Str}, idxOfCh c l = none →
      l.takeWhile (fun a => !(a == c)) = l := by
  intro l
  induction l with
  | nil => intro _; rfl
  | cons a t ih =>
    intro h
    by_cases hac : a = c
    · simp [idxOfCh, hac] at h
    · simp [idxOfCh, hac] at h
      simp [List.takeWhile_cons, hac, ih h]

theorem idxOfCh_some_take {c : Char} :
    ∀ {l : Str} {i : Nat}, idxOfCh c l = some i →
      l.take i = l.takeWhile (fun a => !(a == c)) ∧
      (l.takeWhile (fun a => !(a == c))).length = i := by
  intro l
  induction l with
  | nil => intro i h; simp [idxOfCh] at h
  | cons a t ih =>
    intro i h
    by_cases hac : a = c
    · simp [idxOfCh, hac] at h
      simp [← h, List.takeWhile_cons, hac]
    · simp [idxOfCh, hac] at h
      obtain ⟨j, hj, hij⟩ := h
      obtain ⟨h1, h2⟩ := ih hj
      simp [← hij, List.takeWhile_cons, hac, h1, h2]

/-- C6, amended: the mnemonic is the substring before the first *tab*
when the line contains one, and only otherwise before the first space
(hence before the earliest whitespace only when no space precedes a
tab); the argument blob is the remainder with every space and tab
removed, and a line with no whitespace is a mnemonic with an empty blob.
-/
theorem C6_amended_tokenizer :
    ∀ line : Str, splitLine line = splitLineAmendedSpec line := by
  intro line
  unfold splitLine splitLineAmendedSpec
  cases htab : idxOfCh '\t' line with
  | some i =>
    have hmem : '\t' ∈ line := by
      by_contra hm
      rw [← idxOfCh_none_iff] at hm
      rw [htab] at hm
      exact Option.noConfusion hm
    obtain ⟨h1, h2⟩ := idxOfCh_some_take htab
    simp only [hmem, if_true, h1, h2]
  | none =>
    have hmem : '\t' ∉ line := idxOfCh_none_iff.mp htab
    cases hsp : idxOfCh ' ' line with
    | some j =>
      obtain ⟨h1, h2⟩ := idxOfCh_some_take hsp
      simp only [hmem, if_false, h1, h2]
    | none =>
      have h1 := idxOfCh_none_takeWhile hsp
      simp only [hmem, if_false, h1]
      simp

theorem i32OfNat_of_lt {n : Nat} (h : n < 2 ^ 31) : i32OfNat n = (n : Int) := by
  unfold i32OfNat
  rw [if_pos]
  exact_mod_cast h

theorem u32_coe {n : Nat} (h : n < 2 ^ 32) : u32 (n : Int) = n := by
  unfold u32
  rw [Int.emod_eq_of_lt (by exact_mod_cast Nat.zero_le n)
    (by exact_mod_cast h)]
  exact Int.toNat_natCast n

theorem toI32_eq_self {v : Int} (h1 : -(2 ^ 31) ≤ v) (h2 : v < 2 ^ 31) :
    toI32 v = v := by
  unfold toI32 u32 i32OfNat
  split <;> omega

theorem jsShl_eq_mul {a : Int} {k : Nat} (h0 : 0 ≤ a) (hk : k < 32)
    (h : a * 2 ^ k < 2 ^ 31) : jsShl a k = a * 2 ^ k := by
  unfold jsShl
  have hp : (1 : Int) ≤ 2 ^ k := by
    exact_mod_cast (Nat.one_le_two_pow : 1 ≤ 2 ^ k)
  have ha32 : a < 2 ^ 32 := by
    have h1 : a ≤ a * 2 ^ k := le_mul_of_one_le_right h0 hp
    omega
  have hu : u32 a = a.toNat := by
    unfold u32
    rw [Int.emod_eq_of_lt h0 ha32]
  rw [hu, Nat.mod_eq_of_lt hk, Nat.shiftLeft_eq]
  have hmul : (a.toNat * 2 ^ k : Int) = a * 2 ^ k := by
    rw [Int.toNat_of_nonneg h0]
  have hlt31 : a.toNat * 2 ^ k < 2 ^ 31 := by
    have := hmul ▸ h
    exact_mod_cast this
  rw [Nat.mod_eq_of_lt (lt_trans hlt31 (by norm_num))]
  rw [i32OfNat_of_lt hlt31]
  push_cast
  rw [Int.toNat_of_nonneg h0]

theorem jsShl_one_eq {k : Nat} (hk : k ≤ 30) : jsShl 1 k = (2 : Int) ^ k := by
  rw [jsShl_eq_mul (by norm_num) (by omega)
    (by
      rw [one_mul]
      exact_mod_cast Nat.pow_lt_pow_right (by norm_num) (by omega)),
    one_mul]

theorem jsAnd_mask {v : Int} {k : Nat} (hk : k ≤ 31) :
    jsAnd v ((2 : Int) ^ k - 1) = v % (2 : Int) ^ k := by
  unfold jsAnd
  have hm : u32 ((2 : Int) ^ k - 1) = 2 ^ k - 1 := by
    have h1 : ((2 : Int) ^ k - 1) = (((2 ^ k - 1 : Nat) : Int)) := by
      have : (1 : Nat) ≤ 2 ^ k := Nat.one_le_two_pow
      push_cast [this]
      ring
    rw [h1]
    exact u32_coe (by
      have h2 : (2 : Nat) ^ k ≤ 2 ^ 31 := Nat.pow_le_pow_right (by norm_num) hk
      omega)
  rw [hm]
  have hland : Nat.land (u32 v) (2 ^ k - 1) = u32 v % 2 ^ k :=
    Nat.and_pow_two_sub_one_eq_mod (u32 v) k
  rw [hland]
  have hcast : ((u32 v % 2 ^ k : Nat) : Int) = v % (2 : Int) ^ k := by
    have hnn : (0 : Int) ≤ v % 2 ^ 32 :=
      Int.emod_nonneg v (by norm_num)
    have hu : ((u32 v : Nat) : Int) = v % 2 ^ 32 := by
      unfold u32
      rw [Int.toNat_of_nonneg hnn]
    push_cast
    rw [hu]
    have hdvd : ((2 : Int) ^ k) ∣ ((2 : Int) ^ 32) := pow_dvd_pow 2 (by omega)
    rw [Int.emod_emod_of_dvd v hdvd]
  have hlt : u32 v % 2 ^ k < 2 ^ 31 := by
    have h1 : u32 v % 2 ^ k < 2 ^ k := Nat.mod_lt _ (Nat.pos_pow_of_pos k (by norm_num))
    have h2 : (2 : Nat) ^ k ≤ 2 ^ 31 := Nat.pow_le_pow_right (by norm_num) hk
    omega
  rw [i32OfNat_of_lt hlt, hcast]

theorem jsShr_eq_fdiv {v : Int} {k : Nat} (h1 : -(2 ^ 31) ≤ v)
    (h2 : v < 2 ^ 31) (hk : k < 32) : jsShr v k = Int.fdiv v (2 ^ k) := by
  unfold jsShr
  rw [toI32_eq_self h1 h2, Nat.mod_eq_of_lt hk]

/-- C2, amended: the signed converter accepts `v` exactly when `v` is a
multiple of `2^shift` and `-(2^(bits-1)) ≤ v ≤ (2^bits − 1)·2^shift −
2^(bits-1)` — the minimum is *not* scaled by the shift and the maximum is
biased by the minimum — and an accepted `v` is encoded as
`((v >> shift) & ((1<<bits)-1)) << off`, i.e. `(⌊v / 2^shift⌋ mod 2^bits)
· 2^off`; everything else fails with the out-of-range message. -/
theorem C2_amended_signed_range (off bits shift : Nat) (v : Int) (value : Str)
    (hb : 1 ≤ bits) (hbs : bits + shift ≤ 30) (hob : off + bits ≤ 30) :
    convertIntCore off bits shift true value (some v) =
      if -((2 : Int) ^ (bits - 1)) ≤ v ∧
          v ≤ ((2 : Int) ^ bits - 1) * 2 ^ shift - 2 ^ (bits - 1) ∧
          ((2 : Int) ^ shift ∣ v) then
        Except.ok (Int.fdiv v (2 ^ shift) % (2 : Int) ^ bits * 2 ^ off)
      else
        Except.error (convertIntMsg value (some v)
          (((2 : Int) ^ bits - 1) * 2 ^ shift - 2 ^ (bits - 1)) shift) := by
  have h2b : jsShl 1 bits = (2 : Int) ^ bits := jsShl_one_eq (by omega)
  have h2s : jsShl 1 shift = (2 : Int) ^ shift := jsShl_one_eq (by omega)
  have h2b1 : jsShl 1 (bits - 1) = (2 : Int) ^ (bits - 1) :=
    jsShl_one_eq (by omega)
  have hble1 : ((2 : Int) ^ bits - 1) * 2 ^ shift < 2 ^ 31 := by
    have h1 : ((2 : Int) ^ bits - 1) * 2 ^ shift < 2 ^ bits * 2 ^ shift :=
      mul_lt_mul_of_pos_right (sub_lt_self _ one_pos) (pow_pos two_pos shift)
    rw [← pow_add] at h1
    have h2 : (2 : Int) ^ (bits + shift) ≤ 2 ^ 30 :=
      pow_le_pow_right₀ (by norm_num) hbs
    linarith [(by norm_num : (2 : Int) ^ 30 < 2 ^ 31)]
  have hmax0 : jsShl ((2 : Int) ^ bits - 1) shift
      = ((2 : Int) ^ bits - 1) * 2 ^ shift := by
    apply jsShl_eq_mul _ (by omega) hble1
    have : (1 : Int) ≤ 2 ^ bits := by
      exact_mod_cast (Nat.one_le_two_pow : 1 ≤ 2 ^ bits)
    omega
  simp only [convertIntCore, if_true]
  rw [h2b, h2s, h2b1, hmax0]
  rw [jsAnd_mask (show shift ≤ 31 by omega)]
  rw [show ((2 : Int) ^ bits - 1) * 2 ^ shift + -(2 ^ (bits - 1))
      = ((2 : Int) ^ bits - 1) * 2 ^ shift - 2 ^ (bits - 1) from by ring]
  simp only [← Int.dvd_iff_emod_eq_zero]
  split_ifs with hc
  · obtain ⟨hlo, hhi, _⟩ := hc
    have hb1le : (2 : Int) ^ (bits - 1) ≤ 2 ^ 31 :=
      pow_le_pow_right₀ (by norm_num) (by omega)
    have hv31 : -(2 ^ 31) ≤ v ∧ v < 2 ^ 31 := by
      constructor
      · linarith
      · have : (0 : Int) < 2 ^ (bits - 1) := pow_pos two_pos _
        linarith
    rw [jsShr_eq_fdiv hv31.1 hv31.2 (by omega)]
    rw [jsAnd_mask (show bits ≤ 31 by omega)]
    have hx0 : (0 : Int) ≤ Int.fdiv v (2 ^ shift) % 2 ^ bits :=
      Int.emod_nonneg _ (by positivity)
    have hxlt : Int.fdiv v (2 ^ shift) % 2 ^ bits < 2 ^ bits :=
      Int.emod_lt_of_pos _ (by positivity)
    rw [jsShl_eq_mul hx0 (by omega) (by
      have h1 : Int.fdiv v (2 ^ shift) % 2 ^ bits * 2 ^ off
          < 2 ^ bits * 2 ^ off :=
        mul_lt_mul_of_pos_right hxlt (pow_pos two_pos off)
      rw [← pow_add] at h1
      have h2 : (2 : Int) ^ (bits + off) ≤ 2 ^ 30 :=
        pow_le_pow_right₀ (by norm_num) (by omega)
      linarith [(by norm_num : (2 : Int) ^ 30 < 2 ^ 31)])]
  · rfl

/-- Witness for C2: `C2_amended_signed_range` at `sint(0,8,1)`'s
parameters and the displacement `−6` of the `bne loop` scenario, which
encodes as the field `0xFD = 253`. -/
theorem C2_amended_signed_range_witness :
    convertIntCore 0 8 1 true (str ("x")) (some (-6)) = Except.ok 253 := by
  have h := C2_amended_signed_range 0 8 1 (-6) (str ("x")) (by decide)
    (by decide) (by decide)
  rw [h]
  decide

theorem asmLine_sim (line0 : Str) (st2 st2' st1 : AsmState)
    (h : asmLine st2 line0 = Except.ok st2') (hl : st1.labels = none)
    (ha : st1.addr = st2.addr) (hn : st1.newLabels = st2.newLabels)
    (hw : st1.words.length = st2.words.length) :
    ∃ st1', asmLine st1 line0 = Except.ok st1' ∧ st1'.labels = none ∧
      st1'.addr = st2'.addr ∧ st1'.newLabels = st2'.newLabels ∧
      st1'.words.length = st2'.words.length := by
  by_cases he : jsTrim line0 = []
  · simp only [asmLine, he, if_true, hl, Option.map_none'] at h ⊢
    cases h
    exact ⟨_, rfl, rfl, ha, hn, hw⟩
  · by_cases hcol : (jsTrim line0).getLast? = some ':'
    · by_cases hdup : lookupLab st2.newLabels ((jsTrim line0).dropLast) = none
      · simp only [asmLine, he, hcol, hdup, if_false, if_true, reduceIte,
          ne_eq, not_true_eq_false, not_false_eq_true,
          hl, hn, ha, Option.map_none'] at h ⊢
        cases h
        exact ⟨_, rfl, rfl, rfl, rfl, hw⟩
      · simp only [asmLine, he, hcol, hdup, if_false, if_true, reduceIte,
          ne_eq, not_false_eq_true, hl, hn, ha, Option.map_none'] at h
        exact (Except.noConfusion h)
    · cases hop : opsLookup (splitLine (jsTrim line0)).1 with
      | none =>
        simp only [asmLine, he, hcol, hop, if_false, reduceIte] at h
        exact (Except.noConfusion h)
      | some variants =>
        cases hfv : findVariant variants (splitLine (jsTrim line0)).2 with
        | none =>
          simp only [asmLine, he, hcol, hop, hfv, if_false, reduceIte] at h
          exact (Except.noConfusion h)
        | some vc =>
          simp only [asmLine, he, hcol, hop, hfv, if_false, reduceIte, hl,
            ha, hn, Option.map_none'] at h ⊢
          cases hconv : (match st2.labels.map
              (fun l => setLab l (str ("PC")) ((st2.addr : Int) + 4)) with
            | none => Except.ok ((getOpCode vc.1.base : Nat) : Int)
            | some l => applyArgs vc.1.args vc.2 l
                ((getOpCode vc.1.base : Nat) : Int)) with
          | error e => rw [hconv] at h; cases h
          | ok opCode =>
            rw [hconv] at h
            by_cases hwid : vc.1.base.length > 16
            · simp only [hwid, if_true, reduceIte] at h ⊢
              cases h
              refine ⟨_, rfl, rfl, rfl, rfl, ?_⟩
              simp [List.length_append, hw]
            · simp only [hwid, if_false, reduceIte] at h ⊢
              cases h
              refine ⟨_, rfl, rfl, rfl, rfl, ?_⟩
              simp [List.length_append, hw]

/-- The simulation of `asmLine_sim`, extended over a whole line list. -/
theorem foldl_asmLine_sim :
    ∀ (lines : List Str) (st2 st2' st1 : AsmState),
    List.foldlM asmLine st2 lines = Except.ok st2' → st1.labels = none →
    st1.addr = st2.addr → st1.newLabels = st2.newLabels →
    st1.words.length = st2.words.length →
    ∃ st1', List.foldlM asmLine st1 lines = Except.ok st1' ∧
      st1'.labels = none ∧ st1'.addr = st2'.addr ∧
      st1'.newLabels = st2'.newLabels ∧
      st1'.words.length = st2'.words.length := by
  intro lines
  induction lines with
  | nil =>
    intro st2 st2' st1 h hl ha hn hw
    simp only [List.foldlM_nil] at h ⊢
    cases h
    exact ⟨st1, rfl, hl, ha, hn, hw⟩
  | cons l ls ih =>
    intro st2 st2' st1 h hl ha hn hw
    simp only [List.foldlM_cons] at h ⊢
    cases hstep : asmLine st2 l with
    | error e => rw [hstep] at h; exact (Except.noConfusion h)
    | ok stm2 =>
      rw [hstep] at h
      obtain ⟨stm1, hs1, hs2, hs3, hs4, hs5⟩ :=
        asmLine_sim l st2 stm2 st1 hstep hl ha hn hw
      obtain ⟨st1', hf1, hf2, hf3, hf4, hf5⟩ := ih stm2 st2' stm1 h hs2 hs3 hs4 hs5
      exact ⟨st1', by rw [hs1]; exact hf1, hf2, hf3, hf4, hf5⟩

/-- C7: on every input whose pass 2 succeeds, pass 1 succeeds as well and
makes the identical variant choices: it ends at the same address (sizes
agree line by line), emits the same number of half-words, and builds the
same label table.  Variant selection (`findVariant`) takes only the
variant list and the argument blob — the label table is not an input —
and both passes run the identical first-match loop. -/
theorem C7_pass_agreement (lines : List Str) (labels : LabelMap)
    (st2 : AsmState)
    (h : assembleInternal lines (some labels) = Except.ok st2) :
    ∃ st1, assembleInternal lines none = Except.ok st1 ∧
      st1.addr = st2.addr ∧ st1.newLabels = st2.newLabels ∧
      st1.words.length = st2.words.length := by
  unfold assembleInternal at h ⊢
  obtain ⟨st1, h1, _, h3, h4, h5⟩ := foldl_asmLine_sim lines
    { addr := 0, labels := some labels, newLabels := [], words := [] } st2
    { addr := 0, labels := none, newLabels := [], words := [] } h rfl rfl rfl rfl
  exact ⟨st1, h1, h3, h4, h5⟩

/-- Witness for C7: the theorem applied to the label/branch program's
concrete pass-2 run. -/
theorem C7_pass_agreement_witness :
    ∃ st1, assembleInternal loopLines none = Except.ok st1 ∧
      st1.addr = loopPass2St.addr ∧ st1.newLabels = loopPass2St.newLabels ∧
      st1.words.length = loopPass2St.words.length :=
  C7_pass_agreement loopLines [(str ("loop"), 0)] loopPass2St (by decide)

/-- A concatenation with a non-empty left part is non-empty. -/
theorem append_ne_nil_left {x y : Str} (h : x ≠ []) : x ++ y ≠ [] := by
  intro hc
  rw [List.append_eq_nil] at hc
  exact h hc.1

/-- The `convertInt` failure message is never empty. -/
theorem convertIntMsg_ne_nil (value : Str) (b : Option Int) (m : Int)
    (shift : Nat) : convertIntMsg value b m shift ≠ [] := by
  unfold convertIntMsg
  repeat' apply append_ne_nil_left
  decide

/-- A failing register-list fold carries a non-empty message. -/
theorem rlistFold_error_ne_nil :
    ∀ (l : List Str) (bits : Int) (e : Str),
    rlistFold l bits = Except.error e → e ≠ [] := by
  intro l
  induction l with
  | nil => intro bits e h; exact (Except.noConfusion h)
  | cons r rest ih =>
    intro bits e h
    unfold rlistFold at h
    cases hv : rlistVals (jsTrim r) with
    | some v => rw [hv] at h; exact ih _ _ h
    | none =>
      rw [hv] at h
      cases h
      apply append_ne_nil_left
      decide

/-- A failing range check carries a non-empty message. -/
theorem convertIntCore_error_ne_nil (off bits shift : Nat) (signed : Bool)
    (value : Str) (b : Option Int) (e : Str)
    (h : convertIntCore off bits shift signed value b = Except.error e) :
    e ≠ [] := by
  cases b with
  | some bv =>
    simp only [convertIntCore] at h
    repeat' split at h
    all_goals
      first
      | exact (Except.noConfusion h)
      | (cases h; exact convertIntMsg_ne_nil _ _ _ _)
  | none =>
    simp only [convertIntCore] at h
    cases h; exact convertIntMsg_ne_nil _ _ _ _

/-- A failing `convertInt` carries a non-empty message. -/
theorem convertInt_error_ne_nil (off bits shift : Nat) (signed : Bool)
    (value : Str) (L : LabelMap) (e : Str)
    (h : convertInt off bits shift signed value L = Except.error e) :
    e ≠ [] := by
  unfold convertInt at h
  repeat' split at h
  all_goals
    first
    | exact (Except.noConfusion h)
    | exact convertIntCore_error_ne_nil _ _ _ _ _ _ _ h
    | (dsimp only at h; exact convertIntCore_error_ne_nil _ _ _ _ _ _ _ h)
    | (cases h; repeat' apply append_ne_nil_left
       decide)

/-- Every converter failure carries a non-empty message. -/
theorem runConv_error_ne_nil (c : Conv) (s : Str) (L : LabelMap) (e : Str)
    (h : runConv c s L = Except.error e) : e ≠ [] := by
  cases c with
  | creg off =>
    simp only [runConv, reg] at h
    split at h
    · exact (Except.noConfusion h)
    · cases h; apply append_ne_nil_left; decide
  | creg4 off =>
    simp only [runConv, reg4] at h
    split at h
    · exact (Except.noConfusion h)
    · cases h; apply append_ne_nil_left; decide
  | cregOrImm roff ibit =>
    simp only [runConv, regOrImmediate] at h
    split at h
    · split at h
      · exact (Except.noConfusion h)
      · split at h
        · exact (Except.noConfusion h)
        · cases h; apply append_ne_nil_left; decide
    · split at h
      · exact (Except.noConfusion h)
      · cases h; apply append_ne_nil_left; decide
  | crlist =>
    simp only [runConv, rlistLr] at h
    exact rlistFold_error_ne_nil _ _ _ h
  | cint off bits shift signed =>
    simp only [runConv] at h
    exact convertInt_error_ne_nil _ _ _ _ _ _ _ h
  | cblAddr =>
    simp only [runConv, blAddr, sint] at h
    split at h
    · exact (Except.noConfusion h)
    · cases h
      rename_i e0 heq
      exact convertInt_error_ne_nil _ _ _ _ _ _ _ heq
  | ct3 =>
    simp only [runConv, thumb2ImmediateT3] at h
    repeat' split at h
    all_goals
      first
      | exact (Except.noConfusion h)
      | (cases h; repeat' apply append_ne_nil_left
         decide)
  | cwordHex =>
    simp only [runConv, wordConvHex] at h
    split at h <;> exact (Except.noConfusion h)
  | cwordDec =>
    simp only [runConv, wordConvDec] at h
    split at h <;> exact (Except.noConfusion h)

/-- A failing argument loop carries a non-empty message. -/
theorem applyArgs_error_ne_nil :
    ∀ (convs : List Conv) (caps : List Str) (L : LabelMap) (acc : Int)
      (e : Str), applyArgs convs caps L acc = Except.error e → e ≠ [] := by
  intro convs
  induction convs with
  | nil => intro caps L acc e h; exact (Except.noConfusion h)
  | cons c cs ih =>
    intro caps L acc e h
    unfold applyArgs at h
    cases hr : runConv c (caps.headD []) L with
    | ok bits => rw [hr] at h; exact ih _ _ _ _ h
    | error e0 =>
      rw [hr] at h
      cases h
      exact runConv_error_ne_nil _ _ _ _ hr

/-- Every failure of a single engine iteration carries a non-empty
message. -/
theorem asmLine_error_ne_nil (st : AsmState) (line0 : Str) (e : Str)
    (h : asmLine st line0 = Except.error e) : e ≠ [] := by
  by_cases he : jsTrim line0 = []
  · simp only [asmLine, he, if_true] at h
    exact (Except.noConfusion h)
  · by_cases hcol : (jsTrim line0).getLast? = some ':'
    · by_cases hdup : lookupLab st.newLabels ((jsTrim line0).dropLast) = none
      · simp only [asmLine, he, hcol, hdup, reduceIte, ne_eq,
          not_true_eq_false, not_false_eq_true, if_false, if_true] at h
        exact (Except.noConfusion h)
      · simp only [asmLine, he, hcol, hdup, reduceIte, ne_eq,
          not_false_eq_true, if_false, if_true] at h
        cases h
        repeat' apply append_ne_nil_left
        decide
    · cases hop : opsLookup (splitLine (jsTrim line0)).1 with
      | none =>
        simp only [asmLine, he, hcol, hop, reduceIte] at h
        cases h
        repeat' apply append_ne_nil_left
        decide
      | some variants =>
        cases hfv : findVariant variants (splitLine (jsTrim line0)).2 with
        | none =>
          simp only [asmLine, he, hcol, hop, hfv, reduceIte] at h
          cases h
          repeat' apply append_ne_nil_left
          decide
        | some vc =>
          simp only [asmLine, he, hcol, hop, hfv, reduceIte] at h
          cases hlab : st.labels with
          | none =>
            simp only [hlab, Option.map_none'] at h
            split at h <;> exact (Except.noConfusion h)
          | some L =>
            simp only [hlab, Option.map_some'] at h
            cases hconv : applyArgs vc.1.args vc.2
                (setLab L (str ("PC")) ((st.addr : Int) + 4))
                ((getOpCode vc.1.base : Nat) : Int) with
            | error e0 =>
              rw [hconv] at h
              cases h
              exact applyArgs_error_ne_nil _ _ _ _ _ hconv
            | ok opCode =>
              rw [hconv] at h
              repeat' split at h
              all_goals
                first
                | exact (Except.noConfusion h)
                | (rename_i heq
                   exact (Except.noConfusion heq))

/-- Every failure of an engine pass carries a non-empty message. -/
theorem foldl_asmLine_error_ne_nil :
    ∀ (lines : List Str) (st : AsmState) (e : Str),
    List.foldlM asmLine st lines = Except.error e → e ≠ [] := by
  intro lines
  induction lines with
  | nil => intro st e h; exact (Except.noConfusion h)
  | cons l ls ih =>
    intro st e h
    simp only [List.foldlM_cons] at h
    cases hstep : asmLine st l with
    | error e0 =>
      rw [hstep] at h
      cases h
      exact asmLine_error_ne_nil _ _ _ hstep
    | ok st1 =>
      rw [hstep] at h
      exact ih _ _ h

/-- Every failure of `assemble` carries a non-empty message. -/
theorem assemble_error_ne_nil (lines : List Str) (e : Str)
    (h : assemble lines = Except.error e) : e ≠ [] := by
  unfold assemble at h
  split at h
  · next heq1 =>
      cases h
      exact foldl_asmLine_error_ne_nil _ _ _ heq1
  · next st1 heq1 =>
      split at h
      · next heq2 =>
          cases h
          exact foldl_asmLine_error_ne_nil _ _ _ heq2
      · next => exact (Except.noConfusion h)

/-- C3, amended: a failing `assembleBlock` call returns no output at all
(`undefined`), never a partial half-word sequence, and the underlying
failure always carries a non-empty human-readable message; a successful
call returns the complete emitted sequence.  (The messages of the
`reg`/`rlistLr` converters do not, however, name the offending value:
see the counterexample.) -/
theorem C3_amended_failure_result (lines : List Str) :
    (∃ ws, assemble lines = Except.ok ws ∧
      assembleBlock lines = some (ws.map fmtWord)) ∨
    (∃ e, assemble lines = Except.error e ∧ e ≠ [] ∧
      assembleBlock lines = none) := by
  cases hws : assemble lines with
  | ok ws =>
    left
    exact ⟨ws, rfl, by simp [assembleBlock, hws]⟩
  | error e =>
    right
    exact ⟨e, rfl, assemble_error_ne_nil _ _ hws, by simp [assembleBlock, hws]⟩

/-- The binary-numeral fold is bounded by `2^length`. -/
theorem parseBin_foldl_lt :
    ∀ (s : Str) (a : Nat),
    List.foldl (fun a c => 2 * a + (if c = '1' then 1 else 0)) a s
      < (a + 1) * 2 ^ s.length := by
  intro s
  induction s with
  | nil => intro a; simp
  | cons c t ih =>
    intro a
    simp only [List.foldl_cons, List.length_cons, pow_succ]
    have h1 := ih (2 * a + (if c = '1' then 1 else 0))
    have h2 : (2 * a + (if c = '1' then 1 else 0) + 1) * 2 ^ t.length
        ≤ (a + 1) * (2 ^ t.length * 2) := by
      have hb : (if c = '1' then 1 else 0) ≤ 1 := by split <;> omega
      nlinarith [Nat.pos_pow_of_pos t.length (show 0 < 2 by norm_num)]
    calc List.foldl _ (2 * a + (if c = '1' then 1 else 0)) t
        < (2 * a + (if c = '1' then 1 else 0) + 1) * 2 ^ t.length := h1
      _ ≤ (a + 1) * (2 ^ t.length * 2) := h2

/-- A 16-character template parses to a 16-bit base opcode. -/
theorem getOpCode_lt {b : Str} (h : b.length ≤ 16) : getOpCode b < 65536 := by
  unfold getOpCode parseBin
  have h1 := parseBin_foldl_lt (b.map fun c => if c = '-' ∨ c = '_' then '0' else c) 0
  rw [List.length_map] at h1
  have h2 : (2 : Nat) ^ b.length ≤ 2 ^ 16 := Nat.pow_le_pow_right (by norm_num) h
  omega

/-- OR-ing two 16-bit values stays 16-bit. -/
theorem jsOr_bound16 {a b : Int} (ha : 0 ≤ a ∧ a < 65536)
    (hb : 0 ≤ b ∧ b < 65536) : 0 ≤ jsOr a b ∧ jsOr a b < 65536 := by
  unfold jsOr
  have hua : u32 a = a.toNat := by
    unfold u32
    rw [Int.emod_eq_of_lt ha.1 (by omega)]
  have hub : u32 b = b.toNat := by
    unfold u32
    rw [Int.emod_eq_of_lt hb.1 (by omega)]
  have h1 : Nat.lor a.toNat b.toNat < 2 ^ 16 := by
    exact @Nat.or_lt_two_pow a.toNat b.toNat 16 (by omega) (by omega)
  rw [hua, hub, i32OfNat_of_lt (by omega)]
  omega

/-- A shifted value whose width budget fits in 16 bits stays 16-bit. -/
theorem jsShl_bound {v : Int} {off m : Nat} (h0 : 0 ≤ v)
    (hv : v < (2 : Int) ^ m) (hmo : m + off ≤ 16) :
    0 ≤ jsShl v off ∧ jsShl v off < 65536 := by
  have hlt : v * 2 ^ off < 2 ^ 31 := by
    have h1 : v * 2 ^ off < (2 : Int) ^ m * 2 ^ off :=
      mul_lt_mul_of_pos_right hv (pow_pos two_pos off)
    rw [← pow_add] at h1
    have h2 : (2 : Int) ^ (m + off) ≤ 2 ^ 16 :=
      pow_le_pow_right₀ (by norm_num) hmo
    linarith [(by norm_num : (2 : Int) ^ 16 < 2 ^ 31)]
  rw [jsShl_eq_mul h0 (by omega) hlt]
  constructor
  · positivity
  · have h1 : v * 2 ^ off < (2 : Int) ^ m * 2 ^ off :=
      mul_lt_mul_of_pos_right hv (pow_pos two_pos off)
    rw [← pow_add] at h1
    have h2 : (2 : Int) ^ (m + off) ≤ 2 ^ 16 :=
      pow_le_pow_right₀ (by norm_num) hmo
    have : (2 : Int) ^ 16 = 65536 := by norm_num
    linarith

/-- Masking with a non-negative constant is bounded by the mask. -/
theorem jsAnd_nat_le {x : Int} {m : Nat} (hm : m < 2 ^ 31) :
    0 ≤ jsAnd x (m : Int) ∧ jsAnd x (m : Int) ≤ m := by
  unfold jsAnd
  rw [u32_coe (by omega)]
  have h1 : Nat.land (u32 x) m ≤ m := Nat.and_le_right
  rw [i32OfNat_of_lt (by omega)]
  omega

/-- The zero-fill shift `x >>> 16` of any value is 16-bit. -/
theorem jsShrU_bound16 (x : Int) : 0 ≤ jsShrU x 16 ∧ jsShrU x 16 < 65536 := by
  unfold jsShrU
  have h1 : u32 x < 2 ^ 32 := by
    unfold u32
    have := Int.emod_nonneg x (show (2 ^ 32 : Int) ≠ 0 by norm_num)
    have h2 := Int.emod_lt_of_pos x (show (0 : Int) < 2 ^ 32 by norm_num)
    omega
  rw [Nat.shiftRight_eq_div_pow]
  constructor
  · exact_mod_cast Nat.zero_le _
  · exact_mod_cast Nat.div_lt_of_lt_mul (by norm_num at h1 ⊢; omega)

/-- Low-register numbers are below 8. -/
theorem regVals8_bound {r : Str} {v : Int} (h : regVals8 r = some v) :
    0 ≤ v ∧ v < 8 := by
  unfold regVals8 at h
  repeat' split at h
  all_goals first
    | exact (Option.noConfusion h)
    | (cases h; decide)

/-- Four-bit register numbers are below 16. -/
theorem regVals16_bound {r : Str} {v : Int} (h : regVals16 r = some v) :
    0 ≤ v ∧ v < 16 := by
  unfold regVals16 at h
  repeat' split at h
  all_goals first
    | (cases h; decide)
    | (have hv := regVals8_bound h
       omega)

/-- Register-list bits fit in 16 bits. -/
theorem rlistVals_bound {r : Str} {v : Int} (h : rlistVals r = some v) :
    0 ≤ v ∧ v < 65536 := by
  unfold rlistVals at h
  repeat' split at h
  all_goals first
    | exact (Option.noConfusion h)
    | (cases h; decide)

/-- The register-list fold keeps its accumulator 16-bit. -/
theorem rlistFold_ok_bound :
    ∀ (l : List Str) (bits : Int) (r : Int),
    0 ≤ bits ∧ bits < 65536 → rlistFold l bits = Except.ok r →
    0 ≤ r ∧ r < 65536 := by
  intro l
  induction l with
  | nil =>
    intro bits r hb h
    unfold rlistFold at h
    cases h
    exact hb
  | cons x rest ih =>
    intro bits r hb h
    unfold rlistFold at h
    cases hv : rlistVals (jsTrim x) with
    | none => rw [hv] at h; exact (Except.noConfusion h)
    | some v =>
      rw [hv] at h
      exact ih _ _ (jsOr_bound16 hb (rlistVals_bound hv)) h

/-- Cast arithmetic for the all-ones mask. -/
theorem cast_two_pow_sub_one (k : Nat) :
    ((2 ^ k - 1 : Nat) : Int) = (2 : Int) ^ k - 1 := by
  have : (1 : Nat) ≤ 2 ^ k := Nat.one_le_two_pow
  push_cast [this]
  ring

/-- A successful field encoding with `off + bits ≤ 16` fits in 16 bits.
-/
theorem convertIntCore_ok_bound {off bits shift : Nat} {signed : Bool}
    {value : Str} {b : Option Int} {r : Int} (hbits : 1 ≤ bits)
    (hob : off + bits ≤ 16) (hbs : bits + shift ≤ 30)
    (h : convertIntCore off bits shift signed value b = Except.ok r) :
    0 ≤ r ∧ r < 65536 := by
  cases b with
  | none => simp only [convertIntCore] at h; exact (Except.noConfusion h)
  | some bv =>
    simp only [convertIntCore] at h
    repeat' split at h
    all_goals first
      | exact (Except.noConfusion h)
      | (cases h
         rw [jsShl_one_eq (by omega : bits ≤ 30), ← cast_two_pow_sub_one]
         refine jsShl_bound ?_ ?_ (by omega : bits + off ≤ 16)
         · exact (jsAnd_nat_le (by
             have : (2 : Nat) ^ bits ≤ 2 ^ 30 :=
               Nat.pow_le_pow_right (by norm_num) (by omega)
             omega)).1
         · have h2 := (@jsAnd_nat_le (jsShr bv shift) (2 ^ bits - 1)
             (by
               have : (2 : Nat) ^ bits ≤ 2 ^ 30 :=
                 Nat.pow_le_pow_right (by norm_num) (by omega)
               omega)).2
           have h3 : ((2 ^ bits - 1 : Nat) : Int) < (2 : Int) ^ bits := by
             rw [cast_two_pow_sub_one]
             omega
           calc jsAnd (jsShr bv shift) ((2 ^ bits - 1 : Nat) : Int)
               ≤ ((2 ^ bits - 1 : Nat) : Int) := h2
             _ < (2 : Int) ^ bits := h3)

/-- A successful `convertInt` with `off + bits ≤ 16` fits in 16 bits. -/
theorem convertInt_ok_bound {off bits shift : Nat} {signed : Bool}
    {value : Str} {L : LabelMap} {r : Int} (hbits : 1 ≤ bits)
    (hob : off + bits ≤ 16) (hbs : bits + shift ≤ 30)
    (h : convertInt off bits shift signed value L = Except.ok r) :
    0 ≤ r ∧ r < 65536 := by
  unfold convertInt at h
  repeat' split at h
  all_goals first
    | exact (Except.noConfusion h)
    | exact convertIntCore_ok_bound hbits hob hbs h
    | (dsimp only at h
       exact convertIntCore_ok_bound hbits hob hbs h)

/-- The three-bit mask of `regOrImmediate` is below 8. -/
theorem jsAnd7_bound (x : Int) : 0 ≤ jsAnd x 7 ∧ jsAnd x 7 < 8 := by
  unfold jsAnd
  have h7 : u32 7 = 7 := by decide
  rw [h7]
  have h1 : Nat.land (u32 x) 7 ≤ 7 := Nat.and_le_right
  rw [i32OfNat_of_lt (by omega)]
  omega

/-- Every converter the check `convOk16` accepts returns 16-bit values.
-/
theorem conv16_bound {c : Conv} {s : Str} {L : LabelMap} {r : Int}
    (hc : convOk16 c = true) (h : runConv c s L = Except.ok r) :
    0 ≤ r ∧ r < 65536 := by
  cases c with
  | creg off =>
    simp only [convOk16, decide_eq_true_eq] at hc
    simp only [runConv, reg] at h
    split at h
    · cases h
      rename_i v heq
      have hv := regVals8_bound heq
      exact jsShl_bound hv.1 (by exact_mod_cast hv.2) (by omega : 3 + off ≤ 16)
    · exact (Except.noConfusion h)
  | creg4 off =>
    simp only [convOk16, decide_eq_true_eq] at hc
    simp only [runConv, reg4] at h
    split at h
    · cases h
      rename_i v heq
      have hv := regVals16_bound heq
      exact jsShl_bound hv.1 (by exact_mod_cast hv.2) (by omega : 4 + off ≤ 16)
    · exact (Except.noConfusion h)
  | cregOrImm roff ibit =>
    simp only [convOk16, Bool.and_eq_true, decide_eq_true_eq] at hc
    simp only [runConv, regOrImmediate] at h
    repeat' split at h
    all_goals first
      | exact (Except.noConfusion h)
      | (cases h
         refine jsOr_bound16 ?_ ?_
         · refine jsShl_bound (jsAnd7_bound _).1 ?_ (by omega : 3 + roff ≤ 16)
           exact lt_of_lt_of_le (jsAnd7_bound _).2 (by norm_num)
         · exact jsShl_bound (by norm_num) (by norm_num : (1 : Int) < 2 ^ 1)
             (by omega : 1 + ibit ≤ 16))
      | (cases h
         rename_i v heq
         have hv := regVals8_bound heq
         exact jsShl_bound hv.1 (by exact_mod_cast hv.2)
           (by omega : 3 + roff ≤ 16))
  | crlist =>
    simp only [runConv, rlistLr] at h
    exact rlistFold_ok_bound _ _ _ (by norm_num) h
  | cint off bits shift signed =>
    simp only [convOk16, Bool.and_eq_true, decide_eq_true_eq] at hc
    simp only [runConv] at h
    exact convertInt_ok_bound hc.1 hc.2.1 hc.2.2 h
  | cblAddr => simp [convOk16] at hc
  | ct3 => simp [convOk16] at hc
  | cwordHex => simp [convOk16] at hc
  | cwordDec => simp [convOk16] at hc

/-- The argument loop keeps a 16-bit accumulator 16-bit when every
converter passes `convOk16`. -/
theorem applyArgs_ok_bound :
    ∀ (convs : List Conv) (caps : List Str) (L : LabelMap) (acc : Int)
      (r : Int), convs.all convOk16 = true → 0 ≤ acc ∧ acc < 65536 →
    applyArgs convs caps L acc = Except.ok r → 0 ≤ r ∧ r < 65536 := by
  intro convs
  induction convs with
  | nil =>
    intro caps L acc r _ hacc h
    cases h
    exact hacc
  | cons c cs ih =>
    intro caps L acc r hall hacc h
    simp only [List.all_cons, Bool.and_eq_true] at hall
    unfold applyArgs at h
    cases hr : runConv c (caps.headD []) L with
    | error e => rw [hr] at h; exact (Except.noConfusion h)
    | ok bits =>
      rw [hr] at h
      exact ih _ _ _ _ hall.2
        (jsOr_bound16 hacc (conv16_bound hall.1 hr)) h

/-- The low-half mask `x & 0xffff` of any value is 16-bit. -/
theorem jsAndFFFF_bound (x : Int) : 0 ≤ jsAnd x 65535 ∧ jsAnd x 65535 < 65536 := by
  unfold jsAnd
  have h7 : u32 65535 = 65535 := by decide
  rw [h7]
  have h1 : Nat.land (u32 x) 65535 ≤ 65535 := Nat.and_le_right
  rw [i32OfNat_of_lt (by omega)]
  omega

/-- The selected variant is one of the mnemonic's listed variants. -/
theorem findVariant_mem :
    ∀ {variants : List Variant} {blob : Str} {vc : Variant × List Str},
    findVariant variants blob = some vc → vc.1 ∈ variants := by
  intro variants
  induction variants with
  | nil => intro blob vc h; exact (Option.noConfusion h)
  | cons v rest ih =>
    intro blob vc h
    unfold findVariant at h
    cases hm : jsMatch v.pat blob with
    | some caps =>
      rw [hm] at h
      cases h
      exact List.mem_cons_self _ _
    | none =>
      rw [hm] at h
      exact List.mem_cons_of_mem _ (ih h)

/-- The instruction table passes the 16-bit width check. -/
theorem table16Ok_holds : table16Ok = true := by decide

/-- A 16-bit variant found in the table uses only `convOk16` converters.
-/
theorem opsLookup_args_ok {name : Str} {variants : List Variant}
    {v : Variant} (hop : opsLookup name = some variants)
    (hv : v ∈ variants) (hwid : ¬ v.base.length > 16) :
    v.args.all convOk16 = true := by
  have hfind := hop
  unfold opsLookup at hfind
  cases hf : ops.find? (fun p => p.1 = name) with
  | none => rw [hf] at hfind; exact (Option.noConfusion hfind)
  | some pr =>
    rw [hf] at hfind
    have hmem : pr ∈ ops := List.mem_of_find?_eq_some hf
    have htab := table16Ok_holds
    unfold table16Ok at htab
    rw [List.all_eq_true] at htab
    have h1 := htab pr hmem
    rw [List.all_eq_true] at h1
    have hpr2 : pr.2 = variants := by
      cases hfind
      rfl
    rw [hpr2] at h1
    have h2 := h1 v hv
    rw [Bool.or_eq_true, decide_eq_true_eq] at h2
    cases h2 with
    | inl h3 => exact absurd h3 hwid
    | inr h3 => exact h3

/-- One engine iteration only appends half-words in `[0, 65535]`. -/
theorem asmLine_words_bound {st st' : AsmState} {line0 : Str}
    (h : asmLine st line0 = Except.ok st')
    (inv : ∀ w ∈ st.words, 0 ≤ w ∧ w < 65536) :
    ∀ w ∈ st'.words, 0 ≤ w ∧ w < 65536 := by
  by_cases he : jsTrim line0 = []
  · simp only [asmLine, he, if_true] at h
    cases h
    exact inv
  · by_cases hcol : (jsTrim line0).getLast? = some ':'
    · by_cases hdup : lookupLab st.newLabels ((jsTrim line0).dropLast) = none
      · simp only [asmLine, he, hcol, hdup, reduceIte, ne_eq,
          not_true_eq_false, not_false_eq_true, if_false, if_true] at h
        cases h
        exact inv
      · simp only [asmLine, he, hcol, hdup, reduceIte, ne_eq,
          not_false_eq_true, if_false, if_true] at h
        exact (Except.noConfusion h)
    · cases hop : opsLookup (splitLine (jsTrim line0)).1 with
      | none =>
        simp only [asmLine, he, hcol, hop, reduceIte] at h
        exact (Except.noConfusion h)
      | some variants =>
        cases hfv : findVariant variants (splitLine (jsTrim line0)).2 with
        | none =>
          simp only [asmLine, he, hcol, hop, hfv, reduceIte] at h
          exact (Except.noConfusion h)
        | some vc =>
          simp only [asmLine, he, hcol, hop, hfv, reduceIte] at h
          have hbase : (0 : Int) ≤ ((getOpCode vc.1.base : Nat) : Int) := by
            exact_mod_cast Nat.zero_le _
          cases hconv : (match st.labels.map
              (fun l => setLab l (str ("PC")) ((st.addr : Int) + 4)) with
            | none => Except.ok ((getOpCode vc.1.base : Nat) : Int)
            | some l => applyArgs vc.1.args vc.2 l
                ((getOpCode vc.1.base : Nat) : Int)) with
          | error e => rw [hconv] at h; exact (Except.noConfusion h)
          | ok opCode =>
            rw [hconv] at h
            have hopc16 : ¬ vc.1.base.length > 16 →
                0 ≤ opCode ∧ opCode < 65536 := by
              intro hwid
              have hb16 : ((getOpCode vc.1.base : Nat) : Int) < 65536 := by
                exact_mod_cast getOpCode_lt (by omega)
              cases hlab : st.labels.map
                  (fun l => setLab l (str ("PC")) ((st.addr : Int) + 4)) with
              | none =>
                rw [hlab] at hconv
                cases hconv
                exact ⟨hbase, hb16⟩
              | some l =>
                rw [hlab] at hconv
                exact applyArgs_ok_bound _ _ _ _ _
                  (opsLookup_args_ok hop (findVariant_mem hfv) hwid)
                  ⟨hbase, hb16⟩ hconv
            by_cases hwid : vc.1.base.length > 16
            · simp only [hwid, if_true, reduceIte] at h
              cases h
              intro w hw
              simp only [List.mem_append, List.mem_cons,
                List.not_mem_nil, or_false] at hw
              rcases hw with hw | hw | hw
              · exact inv w hw
              · rw [hw]; exact jsShrU_bound16 _
              · rw [hw]
                exact jsAndFFFF_bound _
            · simp only [hwid, if_false, reduceIte] at h
              cases h
              intro w hw
              simp only [List.mem_append, List.mem_singleton] at hw
              rcases hw with hw | hw
              · exact inv w hw
              · rw [hw]; exact hopc16 hwid

/-- A whole pass only emits half-words in `[0, 65535]`. -/
theorem foldl_asmLine_words_bound :
    ∀ (lines : List Str) (st st' : AsmState),
    List.foldlM asmLine st lines = Except.ok st' →
    (∀ w ∈ st.words, 0 ≤ w ∧ w < 65536) →
    ∀ w ∈ st'.words, 0 ≤ w ∧ w < 65536 := by
  intro lines
  induction lines with
  | nil =>
    intro st st' h inv
    simp only [List.foldlM_nil] at h
    cases h
    exact inv
  | cons l ls ih =>
    intro st st' h inv
    simp only [List.foldlM_cons] at h
    cases hstep : asmLine st l with
    | error e => rw [hstep] at h; exact (Except.noConfusion h)
    | ok st1 =>
      rw [hstep] at h
      exact ih _ _ h (asmLine_words_bound hstep inv)

/-- C10: every half-word a successful `assemble` emits lies in
`[0, 65535]`: for a 32-bit template the two emitted half-words are the
zero-fill high shift `opCode >>> 16` and the masked low half
`opCode & 0xffff`, both 16-bit by construction, and for a 16-bit template
the composed opcode — the 16-bit base OR-ed with converter outputs that
the table check `table16Ok` certifies to fit in 16 bits — never exceeds
`0xFFFF`. -/
theorem C10_halfword_range (lines : List Str) (ws : List Int)
    (h : assemble lines = Except.ok ws) :
    ∀ w ∈ ws, 0 ≤ w ∧ w < 65536 := by
  unfold assemble at h
  split at h
  · exact (Except.noConfusion h)
  · next st1 heq1 =>
      split at h
      · exact (Except.noConfusion h)
      · next st2 heq2 =>
          cases h
          exact foldl_asmLine_words_bound lines _ _ heq2
            (by intro w hw; exact absurd hw (List.not_mem_nil w))

/-- Witness for C10: the theorem applied to the assembled `nop` program.
-/
theorem C10_halfword_range_witness :
    0 ≤ (0x46C0 : Int) ∧ (0x46C0 : Int) < 65536 :=
  C10_halfword_range [str ("nop")] [0x46C0] (by decide) 0x46C0 (by decide)
